import Mathlib

/-!
Verification of the `use-fs-access` core engine (`src/core/index.ts`, the
hook version exporting `renameFile`/`copyFile`).

The TypeScript code is shallowly embedded: JavaScript `Map`s become
insertion-ordered association lists (`Smap`), entry records become
structures, external File System Access calls become oracle lookups
(`Disk`) plus an explicit call trace, and each trace element is tagged
with the value of the watcher-pause flag at the moment the call is
issued.  `Promise.all` batches whose tasks touch pairwise distinct keys
are linearized into sequential folds.  In-place mutation of an entry
object that is held by the live index map is modelled as an update of
that map at the entry's key.
-/

namespace UseFsAccess

/-- Insertion-ordered string-keyed map, the model of a JavaScript `Map`. -/
abbrev Smap (α : Type) : Type := List (String × α)

namespace Smap

/-- `Map.prototype.get`. -/
def get {α : Type} : Smap α → String → Option α
  | [], _ => none
  | (k', v) :: rest, k => if k' = k then some v else get rest k

/-- `Map.prototype.set`: replace in place if the key exists, else append. -/
def set {α : Type} : Smap α → String → α → Smap α
  | [], k, v => [(k, v)]
  | (k', v') :: rest, k, v =>
      if k' = k then (k, v) :: rest else (k', v') :: set rest k v

/-- `Map.prototype.delete`. -/
def erase {α : Type} : Smap α → String → Smap α
  | [], _ => []
  | (k', v) :: rest, k => if k' = k then erase rest k else (k', v) :: erase rest k

/-- `Map.prototype.has`. -/
def hasKey {α : Type} (m : Smap α) (k : String) : Bool :=
  (m.get k).isSome

end Smap

/-- Result of `FileSystemFileHandle.getFile()` (name, metadata, text). -/
structure FileData where
  name : String
  lastModified : Nat
  size : Nat
  type : String
  text : String
deriving DecidableEq, Repr

/-- `FileInfo` entry record (`kind: "file"` is carried by the `Entry`
constructor; handles are identified by the path string they were obtained
at). -/
structure FileInfo where
  name : String
  path : String
  handle : String
  size : Nat
  lastModified : Nat
  type : String
  content : Option String
  opened : Bool
deriving DecidableEq, Repr

/-- `DirectoryInfo` entry record (`kind: "directory"` carried by the
`Entry` constructor). -/
structure DirectoryInfo where
  name : String
  path : String
  handle : String
  loaded : Bool
deriving DecidableEq, Repr

/-- `FileOrDirectoryInfo`. -/
inductive Entry where
  | file (f : FileInfo)
  | dir (d : DirectoryInfo)
deriving DecidableEq, Repr

def Entry.name : Entry → String
  | .file f => f.name
  | .dir d => d.name

def Entry.path : Entry → String
  | .file f => f.path
  | .dir d => d.path

def Entry.isDir : Entry → Bool
  | .file _ => false
  | .dir _ => true

/-- `FileCacheEntry`. -/
structure CacheEntry where
  content : String
  timestamp : Nat
deriving DecidableEq, Repr

/-- The mutable refs of the hook that the mutation operations and the poll
cycle touch (`filesRef`, `previousFilesRef`, `watchedDirectoriesRef`,
`fileCacheRef`, `pauseFileWatcherRef`, `ignoredPathsRef`,
`memoIgnoredPathsRef`; the filter objects themselves are represented by
the ignore-predicate oracle, so only their ignored-path state appears). -/
structure St where
  files : Smap Entry
  prevFiles : Smap Entry
  watched : Smap String
  fileCache : Smap CacheEntry
  pause : Bool
  ignoredPaths : List String := []
  memoIgnoredPaths : List String := []
deriving DecidableEq, Repr

/-- External-store content reachable from a directory handle, for the
recursive rename/copy walks and the tree loader. -/
inductive DiskTree where
  | node (files : List (String × FileData)) (dirs : List (String × DiskTree))
deriving Repr

def DiskTree.files : DiskTree → List (String × FileData)
  | .node fs _ => fs

def DiskTree.dirs : DiskTree → List (String × DiskTree)
  | .node _ ds => ds

/-- Oracle for the external File System Access calls: `file h` is the
result of `getFile()` on handle `h` (`none` = the call rejects),
`writeOk h` tells whether a write stream to `h` succeeds, `afterWrite h c`
is the `getFile()` result after `c` was written to `h`, `removeOk p n`
tells whether `removeEntry(n)` on parent handle `p` succeeds, and
`subtree h` is the tree below directory handle `h`. -/
structure Disk where
  file : String → Option FileData
  writeOk : String → Bool
  afterWrite : String → String → FileData
  removeOk : String → String → Bool
  subtree : String → DiskTree

/-- One external-store call, as recorded in an operation's trace. -/
inductive ExtCall where
  | removeEntry (parent name : String) (recursive : Bool)
  | getFileHandle (parent name : String) (create : Bool)
  | getDirectoryHandle (parent name : String) (create : Bool)
  | getFile (handle : String)
  | createWritable (handle : String)
  | writeStream (handle : String)
  | closeStream (handle : String)
  | abortStream (handle : String)
deriving DecidableEq, Repr

/-- A recorded call together with the watcher-pause flag at issue time. -/
abbrev Tagged : Type := ExtCall × Bool

/-- Outcome of one mutation operation: result, post-state, call trace. -/
structure OpResult (α : Type) where
  res : Except String α
  st : St
  calls : List Tagged

/-! ### JavaScript string primitives

The JS string methods used by the source (`includes`, `startsWith`,
`endsWith`, `toLowerCase`, `split`) are modelled over the character list
of the string so that they evaluate on concrete inputs. -/

/-- `s.includes(c)` for a single-character needle. -/
def strContains (s : String) (c : Char) : Bool :=
  s.data.contains c

/-- `s.startsWith(pre)`. -/
def strStartsWith (s pre : String) : Bool :=
  pre.data.isPrefixOf s.data

/-- `s.endsWith(suf)`. -/
def strEndsWith (s suf : String) : Bool :=
  suf.data.isSuffixOf s.data

/-- `s.toLowerCase()` (ASCII). -/
def strToLower (s : String) : String :=
  String.mk (s.data.map Char.toLower)

/-- `s.split(sep)` on a one-character separator, on character lists. -/
def splitChar (sep : Char) : List Char → List (List Char)
  | [] => [[]]
  | c :: rest =>
      let r := splitChar sep rest
      if c = sep then [] :: r
      else
        match r with
        | h :: t => (c :: h) :: t
        | [] => [[c]]

/-- `s.split(sep)` for a one-character separator. -/
def strSplitOnChar (sep : Char) (s : String) : List String :=
  (splitChar sep s.data).map String.mk

/-- `parts.join(sep)`. -/
def joinStr (sep : String) : List String → String
  | [] => ""
  | [x] => x
  | x :: xs => x ++ sep ++ joinStr sep xs

/-! ### Path helpers (source: bottom of `src/core/index.ts`) -/

/-- `isRootFilePath`: `!path.includes("/")`. -/
def isRootFilePath (path : String) : Bool :=
  !(strContains path '/')

/-- `path.substring(path.lastIndexOf("/") + 1)`. -/
def pathBaseName (path : String) : String :=
  (strSplitOnChar '/' path).getLastD ""

/-- `getParentFilePath`: `path.substring(0, path.lastIndexOf("/"))` when
the path has a separator, else the path itself. -/
def getParentFilePath (path : String) : String :=
  if strContains path '/' then
    joinStr "/" (strSplitOnChar '/' path).dropLast
  else path

/-- `path.substring(0, path.lastIndexOf("/") + 1)` — the parent part
including the trailing slash (empty when there is no separator). -/
def pathDirWithSlash (path : String) : String :=
  if strContains path '/' then
    joinStr "/" (strSplitOnChar '/' path).dropLast ++ "/"
  else ""

/-! ### `getFileEntryName` — collision-avoiding name resolution -/

/-- The `while` loop of `getFileEntryName`: keep bumping the counter while
the candidate path (lower-cased) is among the existing keys.  The loop is
given `existing.length + 1` steps of fuel, which is enough because the
candidate paths for distinct counters are distinct. -/
def getFileEntryNameAux (existing : List String) (parentPath base ext : String) :
    Nat → Nat → String → String → String
  | 0, _, candidate, _ => candidate
  | fuel + 1, counter, candidate, currentPath =>
      if existing.contains (strToLower currentPath) then
        let c := counter + 1
        let newFileName := base ++ " (" ++ toString c ++ ")" ++ ext
        getFileEntryNameAux existing parentPath base ext fuel c newFileName
          (parentPath ++ newFileName)
      else candidate

/-- `getFileEntryName(path)`: split the base name from the extension at the
last dot and append `" (n)"` until the resulting path collides with no
existing index key (comparison is case-insensitive). -/
def getFileEntryName (files : Smap Entry) (path : String) : String :=
  let parentPath := pathDirWithSlash path
  let fileName := pathBaseName path
  let base := if strContains fileName '.' then
      joinStr "." (strSplitOnChar '.' fileName).dropLast
    else fileName
  let ext := if strContains fileName '.' then
      "." ++ (strSplitOnChar '.' fileName).getLastD ""
    else ""
  let existingPaths := files.map (fun e => strToLower e.1)
  getFileEntryNameAux existingPaths parentPath base ext
    (existingPaths.length + 1) 1 fileName path

/-- `ensureGetParentDirInfo`. -/
def ensureGetParentDirInfo (files : Smap Entry) (path : String) :
    Except String DirectoryInfo :=
  let parentPath := getParentFilePath path
  match files.get parentPath with
  | some (.dir d) => .ok d
  | _ => .error ("Parent directory not found: " ++ parentPath)

/-! ### `toggleFileOpened`, `openFile`, `closeFile` -/

/-- `toggleFileOpened(path, open)` (lines 1859–1892).  On open, the file is
read and the entry gains its content and fresh metadata with
`opened = true`; on close, `content` is removed and, if the entry was
opened, the cache entry for its path is dropped and `opened` is reset.
The in-place mutation of the entry object is modelled as a map update. -/
def toggleFileOpened (disk : Disk) (st : St) (path : String) (openFlag : Bool) :
    Except String FileInfo × St :=
  match st.files.get path with
  | none => (.error ("File not found: " ++ path), st)
  | some (.dir _) => (.error ("Entry is not a file: " ++ path), st)
  | some (.file fi) =>
      if openFlag then
        match disk.file fi.handle with
        | none => (.error ("Unable to open file: " ++ path), st)
        | some fd =>
            let fi' : FileInfo :=
              { fi with content := some fd.text, lastModified := fd.lastModified,
                        size := fd.size, type := fd.type, name := fd.name,
                        opened := true }
            (.ok fi', { st with files := st.files.set path (.file fi') })
      else
        if fi.opened then
          let fi' : FileInfo := { fi with content := none, opened := false }
          (.ok fi', { st with files := st.files.set path (.file fi'),
                              fileCache := st.fileCache.erase fi.path })
        else
          let fi' : FileInfo := { fi with content := none }
          (.ok fi', { st with files := st.files.set path (.file fi') })

/-- `openFile(path)` (lines 1213–1218). -/
def openFile (disk : Disk) (st : St) (path : String) : Except String FileInfo × St :=
  if path = "" then (.error ("Invalid file path: " ++ path), st)
  else toggleFileOpened disk st path true

/-- `closeFile(path)` (lines 1220–1225). -/
def closeFile (disk : Disk) (st : St) (path : String) : Except String FileInfo × St :=
  if path = "" then (.error ("Invalid file path: " ++ path), st)
  else toggleFileOpened disk st path false

/-! ### `writeFile` and `createDirectory` -/

/-- `WriteFileOptions` (`open` is a Lean keyword, hence `openOpt`). -/
structure WriteFileOptions where
  create : Option Bool := none
  openOpt : Option Bool := none
  keepData : Option Bool := none
deriving DecidableEq, Repr

/-- The `try` block of `writeFile` (lines 1251–1314), with the resolved
collision-free `name` and `path` as arguments.  The source casts the
existing index entry to `FileInfo` in the `create=false` branch; a
directory entry there is outside that typed contract and is modelled as
the wrapped failure.  The in-place `fileInfo.opened = open` mutation on
the live entry object (line 1272) is modelled as an immediate index
update `st1`, since the object sits in the live index map. -/
def writeFileBody (disk : Disk) (now : Nat) (st : St)
    (parentDirInfo : DirectoryInfo) (name path : String) (create : Bool)
    (openOpt : Option Bool) (data : Option String) : OpResult FileInfo :=
  let tr0 : List Tagged :=
    [(.getFileHandle parentDirInfo.handle name create, st.pause)]
  let fileHandle := path
  -- the `open` flag mutation on the live entry object (line 1272)
  let st1 : St :=
    if create then st
    else
      match st.files.get path with
      | some (.file fi) =>
          if openOpt = some true ∧ fi.opened ≠ true then
            { st with files := st.files.set path (.file { fi with opened := true }) }
          else st
      | _ => st
  -- resolve `fileInfo`
  let resolved : Except String FileInfo :=
    if create then
      match disk.file fileHandle with
      | none => .error ("Unable to create file: getFile rejected")
      | some file =>
          .ok { name := name, path := path, handle := fileHandle,
                opened := openOpt.getD false,
                lastModified := file.lastModified, size := file.size,
                type := file.type, content := none }
    else
      match st.files.get path with
      | some (.file fi) =>
          .ok (if openOpt = some true ∧ fi.opened ≠ true then
                { fi with opened := true }
              else fi)
      | _ => .error ("Unable to create file: not a file entry")
  match resolved with
  | .error e =>
      ⟨.error e, st,
        tr0 ++ if create then [(.getFile fileHandle, st.pause)] else []⟩
  | .ok fi =>
      let trGet : List Tagged :=
        if create then [(.getFile fileHandle, st.pause)] else []
      match data with
      | none =>
          -- no data: only the index insertion under a loaded parent
          let st2 :=
            if parentDirInfo.loaded then
              { st1 with files := st1.files.set path (.file fi),
                         prevFiles := st1.prevFiles.set path (.file fi) }
            else st1
          ⟨.ok fi, st2, tr0 ++ trGet⟩
      | some d =>
          let trW : List Tagged :=
            tr0 ++ trGet ++ [(.createWritable fileHandle, st.pause)]
          if disk.writeOk fileHandle then
            let content := d
            let file := disk.afterWrite fileHandle content
            let fi2 : FileInfo :=
              { fi with content := some content,
                        lastModified := file.lastModified,
                        size := file.size, type := file.type }
            let st2 :=
              if st1.fileCache.hasKey fi.path then
                { st1 with fileCache :=
                    st1.fileCache.set fi.path ⟨content, now⟩ }
              else st1
            let st3 :=
              if parentDirInfo.loaded then
                { st2 with files := st2.files.set path (.file fi2),
                           prevFiles := st2.prevFiles.set path (.file fi2) }
              else st2
            ⟨.ok fi2, st3,
              trW ++ [(.writeStream fileHandle, st.pause),
                      (.closeStream fileHandle, st.pause)]⟩
          else
            -- the write rejects: the stream is aborted, the error is
            -- re-raised and wrapped by the outer catch
            ⟨.error ("Unable to create file: write failed"), st1,
              trW ++ [(.writeStream fileHandle, st.pause),
                      (.abortStream fileHandle, st.pause)]⟩

/-- `writeFile(path, options, data?)` (lines 1227–1315): validation, the
collision-avoiding name resolution under `create`, and the `try` block
(`writeFileBody`).  `data` is modelled as a string payload and
`Date.now()` as the `now` argument. -/
def writeFile (disk : Disk) (now : Nat) (st : St) (path0 : String)
    (opts : WriteFileOptions) (data : Option String) : OpResult FileInfo :=
  if path0 = "" ∨ isRootFilePath path0 then
    ⟨.error ("Invalid file path: " ++ path0), st, []⟩
  else
    match ensureGetParentDirInfo st.files path0 with
    | .error e => ⟨.error e, st, []⟩
    | .ok parentDirInfo =>
        let name0 := pathBaseName path0
        if name0 = "" then ⟨.error ("Invalid file name: " ++ name0), st, []⟩
        else
          let create := opts.create.getD true
          let name := if create then getFileEntryName st.files path0 else name0
          let path := if create then parentDirInfo.path ++ "/" ++ name else path0
          if !create ∧ !(st.files.hasKey path) then
            ⟨.error ("File not found: " ++ path), st, []⟩
          else
            writeFileBody disk now st parentDirInfo name path create
              opts.openOpt data

/-- `createDirectory(name, parentPath)` (lines 1317–1352). -/
def createDirectory (st : St) (name0 parentPath : String) : OpResult DirectoryInfo :=
  let name := getFileEntryName st.files (parentPath ++ "/" ++ name0)
  let dirPath := parentPath ++ "/" ++ name
  match st.files.get parentPath with
  | some (.dir parentInfo) =>
      let dirInfo : DirectoryInfo :=
        { name := name, path := dirPath, handle := dirPath, loaded := false }
      let st' :=
        if parentInfo.loaded then
          { st with files := st.files.set dirPath (.dir dirInfo),
                    prevFiles := st.prevFiles.set dirPath (.dir dirInfo) }
        else st
      ⟨.ok dirInfo, st',
        [(.getDirectoryHandle parentInfo.handle name true, st.pause)]⟩
  | _ => ⟨.error ("Parent directory not found: " ++ dirPath), st, []⟩

/-! ### `deleteFile` -/

/-- The purge loop of `deleteSubDirectories(path)` (lines 1974–1983): every
index key that equals the target or has it as a **string prefix** is
removed from the live index and the previous snapshot, and loaded
directory entries among them leave the watch index.  The iteration runs
over the index as it stands when the loop starts. -/
def deleteSubDirectoriesPurge (path : String) : List (String × Entry) → St → St
  | [], st => st
  | (key, entry) :: rest, st =>
      if key ≠ path ∧ !(strStartsWith key path) then
        deleteSubDirectoriesPurge path rest st
      else
        let st1 :=
          match entry with
          | .dir d => if d.loaded then { st with watched := st.watched.erase key } else st
          | .file _ => st
        deleteSubDirectoriesPurge path rest
          { st1 with files := st1.files.erase key,
                     prevFiles := st1.prevFiles.erase key }

/-- `deleteFile(path, recursive)` (lines 1354–1390).  Validation happens
before the pause flag is raised and before any external call; the single
external `removeEntry` runs with the pause flag set, and the flag is
cleared on every exit path of the `try`/`finally`. -/
def deleteFile (disk : Disk) (st : St) (path : String) (recursive : Bool) :
    OpResult Unit :=
  if path = "" then ⟨.error ("Invalid path: " ++ path), st, []⟩
  else
    match st.files.get path with
    | none => ⟨.error ("File or directory not found: " ++ path), st, []⟩
    | some entryInfo =>
        if isRootFilePath path then
          ⟨.error ("Root directory can't be deleted: " ++ path), st, []⟩
        else
          let isRecursive := entryInfo.isDir && recursive
          let st1 := { st with pause := true }
          match ensureGetParentDirInfo st1.files path with
          | .error _ =>
              ⟨.error ("Unable to delete: " ++ path), { st1 with pause := false }, []⟩
          | .ok parentDirInfo =>
              let tr : List Tagged :=
                [(.removeEntry parentDirInfo.handle entryInfo.name isRecursive,
                  st1.pause)]
              if !(disk.removeOk parentDirInfo.handle entryInfo.name) then
                ⟨.error ("Unable to delete: " ++ path), { st1 with pause := false }, tr⟩
              else
                let st2 := { st1 with files := st1.files.erase entryInfo.path,
                                      prevFiles := st1.prevFiles.erase entryInfo.path }
                let st3 :=
                  match entryInfo with
                  | .file f =>
                      if f.opened then
                        { st2 with fileCache := st2.fileCache.erase f.path }
                      else st2
                  | .dir d =>
                      if d.loaded then
                        { st2 with watched := st2.watched.erase d.path }
                      else st2
                let st4 :=
                  if isRecursive then deleteSubDirectoriesPurge path st3.files st3
                  else st3
                ⟨.ok (), { st4 with pause := false }, tr⟩

/-! ### `updateDirectoryContents` — shared subtree rebuild for rename/copy -/

/-- The mutable structures threaded through `updateDirectoryContents`: the
scratch files map, the scratch watch index, the (directly mutated) content
cache, and the accumulated call trace. -/
structure UpdCtx where
  filesMap : Smap Entry
  watched : Smap String
  fileCache : Smap CacheEntry
  calls : List Tagged

/-- The file part of one `updateDirectoryContents` level (lines 1907–1935):
each file child is copied externally, and the scratch map gains the new
entry when the old path was a file entry (otherwise `continue`). -/
def updFiles (pause : Bool) :
    List (String × FileData) → String → String → String → Bool → UpdCtx → UpdCtx
  | [], _, _, _, _, ctx => ctx
  | (name, fd) :: rest, destHandle, oldBase, newBase, replace, ctx =>
      let oldPath := oldBase ++ "/" ++ name
      let newPath := newBase ++ "/" ++ name
      let newHandle := newPath
      let ctx1 : UpdCtx :=
        { ctx with calls := ctx.calls ++
            [(.getFile oldPath, pause), (.getFileHandle destHandle name true, pause),
             (.createWritable newHandle, pause), (.writeStream newHandle, pause),
             (.closeStream newHandle, pause)] }
      let content := fd.text
      -- the copy has happened; the branch only updates the two maps
      let maps : Smap Entry × Smap CacheEntry :=
        match ctx1.filesMap.get oldPath with
        | some (.file oldFileInfo) =>
            let newFileInfo : FileInfo :=
              { name := name, path := newPath, handle := newHandle,
                size := fd.size, lastModified := fd.lastModified, type := fd.type,
                opened := oldFileInfo.opened,
                content := if oldFileInfo.opened then some content else none }
            let base : Smap Entry × Smap CacheEntry :=
              if replace then
                (ctx1.filesMap.erase oldPath, ctx1.fileCache.erase oldPath)
              else (ctx1.filesMap, ctx1.fileCache)
            (base.1.set newPath (.file newFileInfo), base.2)
        | _ => (ctx1.filesMap, ctx1.fileCache)
      let ctx2 : UpdCtx := { ctx1 with filesMap := maps.1, fileCache := maps.2 }
      updFiles pause rest destHandle oldBase newBase replace ctx2

mutual

/-- `updateDirectoryContents(src, dest, filesMap, watchedDirectories,
oldBasePath, newBasePath, replace = true)` (lines 1894–1972).  The single
`for await` loop over mixed entries is linearized as the file children
followed by the directory children; the recursive call uses the **default**
`replace = true` regardless of the top-level flag, as in the source. -/
def updateDirectoryContents (pause : Bool) :
    DiskTree → String → String → String → Bool → UpdCtx → UpdCtx
  | .node fs ds, destHandle, oldBase, newBase, replace, ctx =>
      updDirs pause ds destHandle oldBase newBase replace
        (updFiles pause fs destHandle oldBase newBase replace ctx)

/-- The directory part of one `updateDirectoryContents` level
(lines 1936–1970). -/
def updDirs (pause : Bool) :
    List (String × DiskTree) → String → String → String → Bool → UpdCtx → UpdCtx
  | [], _, _, _, _, ctx => ctx
  | (name, sub) :: rest, destHandle, oldBase, newBase, replace, ctx =>
      let oldPath := oldBase ++ "/" ++ name
      let newPath := newBase ++ "/" ++ name
      let newDirHandle := newPath
      let ctx1 : UpdCtx :=
        { ctx with calls := ctx.calls ++
            [(.getDirectoryHandle destHandle name true, pause)] }
      -- the branch only updates the files map and the watch index
      let maps : Smap Entry × Smap String :=
        match ctx1.filesMap.get oldPath with
        | some (.dir oldDirInfo) =>
            let newDirInfo : DirectoryInfo :=
              { name := name, path := newPath, handle := newDirHandle,
                loaded := oldDirInfo.loaded }
            let base : Smap Entry × Smap String :=
              if replace then
                ((ctx1.filesMap.erase oldPath).set newPath (.dir newDirInfo),
                 if oldDirInfo.loaded then ctx1.watched.erase oldDirInfo.path
                 else ctx1.watched)
              else (ctx1.filesMap, ctx1.watched)
            (base.1,
             if oldDirInfo.loaded then base.2.set newPath newDirHandle else base.2)
        | _ => (ctx1.filesMap, ctx1.watched)
      let ctx2 : UpdCtx := { ctx1 with filesMap := maps.1, watched := maps.2 }
      let ctx3 := updateDirectoryContents pause sub newDirHandle oldPath newPath true ctx2
      updDirs pause rest destHandle oldBase newBase replace ctx3

end

/-! ### `renameFile` -/

/-- `doRenameFile(oldFileInfo, parentDir, name, path)` (lines 1436–1476):
copy the content to the resolved name, remove the old resource **only when
the resolved name differs case-insensitively**, and move the index entry
when the parent is loaded. -/
def doRenameFile (disk : Disk) (st : St) (oldFileInfo : FileInfo)
    (parentDir : DirectoryInfo) (name path : String) : OpResult FileInfo :=
  match disk.file oldFileInfo.handle with
  | none =>
      ⟨.error ("Unable to read file: " ++ oldFileInfo.path), st,
        [(.getFile oldFileInfo.handle, st.pause)]⟩
  | some file =>
      let content := file.text
      let newFileHandle := path
      let tr1 : List Tagged :=
        [(.getFile oldFileInfo.handle, st.pause),
         (.getFileHandle parentDir.handle name true, st.pause),
         (.createWritable newFileHandle, st.pause)]
      if !(disk.writeOk newFileHandle) then
        ⟨.error ("Unable to write file: " ++ path), st,
          tr1 ++ [(.writeStream newFileHandle, st.pause)]⟩
      else
        let tr2 := tr1 ++ [(.writeStream newFileHandle, st.pause),
                           (.closeStream newFileHandle, st.pause)]
        let deleteOld := strToLower oldFileInfo.name ≠ strToLower name
        let trDel : List Tagged :=
          if deleteOld then
            [(.removeEntry parentDir.handle oldFileInfo.name false, st.pause)]
          else []
        if deleteOld ∧ !(disk.removeOk parentDir.handle oldFileInfo.name) then
          ⟨.error ("Unable to remove file: " ++ oldFileInfo.path), st, tr2 ++ trDel⟩
        else
          let newFile := disk.afterWrite newFileHandle content
          let newFileInfo : FileInfo :=
            { handle := newFileHandle, name := newFile.name,
              lastModified := newFile.lastModified, size := newFile.size,
              type := newFile.type, path := path, content := some content,
              opened := false }
          let st' :=
            if parentDir.loaded then
              { st with
                files := (st.files.erase oldFileInfo.path).set path (.file newFileInfo),
                prevFiles :=
                  (st.prevFiles.erase oldFileInfo.path).set path (.file newFileInfo) }
            else st
          ⟨.ok newFileInfo, st', tr2 ++ trDel ++ [(.getFile newFileHandle, st.pause)]⟩

/-- `doRenameDirectory(oldDirInfo, parentDir, name, path)`
(lines 1478–1537).  The live index loses the old directory entry before
the scratch copy is taken; the rebuilt scratch maps are swapped in after
the old subtree is removed (the removal happens only when the resolved
name differs case-insensitively). -/
def doRenameDirectory (disk : Disk) (st : St) (oldDirInfo : DirectoryInfo)
    (parentDir : DirectoryInfo) (name path : String) : OpResult DirectoryInfo :=
  let newDirHandle := path
  let tr0 : List Tagged := [(.getDirectoryHandle parentDir.handle name true, st.pause)]
  let files1 := st.files.erase oldDirInfo.path
  let watched1 :=
    if oldDirInfo.loaded then st.watched.erase oldDirInfo.path else st.watched
  let newDirInfo : DirectoryInfo :=
    { handle := newDirHandle, name := name, path := path, loaded := oldDirInfo.loaded }
  let ctx0 : UpdCtx :=
    { filesMap := files1.set path (.dir newDirInfo),
      watched :=
        if newDirInfo.loaded then watched1.set path newDirHandle else watched1,
      fileCache := st.fileCache, calls := [] }
  let ctx1 := updateDirectoryContents st.pause (disk.subtree oldDirInfo.handle)
    newDirHandle oldDirInfo.path path true ctx0
  let deleteDir := strToLower oldDirInfo.name ≠ strToLower name
  let trDel : List Tagged :=
    if deleteDir then
      [(.removeEntry parentDir.handle oldDirInfo.name true, st.pause)]
    else []
  if deleteDir ∧ !(disk.removeOk parentDir.handle oldDirInfo.name) then
    -- catch: the new directory is removed again and the scratch is discarded
    ⟨.error ("Unable to rename directory: " ++ path),
      { st with files := files1, watched := watched1, fileCache := ctx1.fileCache },
      tr0 ++ ctx1.calls ++ trDel ++ [(.removeEntry parentDir.handle name true, st.pause)]⟩
  else
    ⟨.ok newDirInfo,
      { st with files := ctx1.filesMap, prevFiles := ctx1.filesMap,
                watched := ctx1.watched, fileCache := ctx1.fileCache },
      tr0 ++ ctx1.calls ++ trDel⟩

/-- `renameFile(path, newName)` (lines 1393–1434).  Validation and the
collision check run before the pause flag is raised; the body runs with
the flag set and the `finally` clears it on success and on failure. -/
def renameFile (disk : Disk) (st : St) (path newName0 : String) : OpResult Entry :=
  if path = "" ∨ !(strContains path '/') then
    ⟨.error ("Invalid path: " ++ path), st, []⟩
  else if newName0 = "" then ⟨.error ("Invalid name: " ++ newName0), st, []⟩
  else
    match st.files.get path with
    | none => ⟨.error ("File or directory not found: " ++ path), st, []⟩
    | some oldEntryInfo =>
        match ensureGetParentDirInfo st.files path with
        | .error e => ⟨.error e, st, []⟩
        | .ok parentDirInfo =>
            let newName :=
              getFileEntryName st.files (parentDirInfo.path ++ "/" ++ newName0)
            let newPath := parentDirInfo.path ++ "/" ++ newName
            if st.files.hasKey newPath then
              ⟨.error ("File or directory with this name already exists: " ++ newName),
                st, []⟩
            else
              let st1 := { st with pause := true }
              let r : OpResult Entry :=
                match oldEntryInfo with
                | .file f =>
                    let r := doRenameFile disk st1 f parentDirInfo newName newPath
                    ⟨r.res.map Entry.file, r.st, r.calls⟩
                | .dir d =>
                    let r := doRenameDirectory disk st1 d parentDirInfo newName newPath
                    ⟨r.res.map Entry.dir, r.st, r.calls⟩
              ⟨(match r.res with
                 | .ok v => .ok v
                 | .error _ => .error ("Unable to rename entry: " ++ path)),
               { r.st with pause := false }, r.calls⟩

/-! ### `copyFile` -/

/-- `doCopyFile(source, destination, parentDirHandle, newName, newPath,
replace)` (lines 1608–1650). -/
def doCopyFile (disk : Disk) (st : St) (source : FileInfo)
    (destinationHandle parentDirHandle : String) (newName newPath : String)
    (replace : Bool) : OpResult Unit :=
  match disk.file source.handle with
  | none =>
      ⟨.error ("Unable to read file: " ++ source.path), st,
        [(.getFile source.handle, st.pause)]⟩
  | some file =>
      let content := file.text
      let newFileHandle := newPath
      let tr1 : List Tagged :=
        [(.getFile source.handle, st.pause),
         (.getFileHandle destinationHandle newName true, st.pause),
         (.createWritable newFileHandle, st.pause)]
      if !(disk.writeOk newFileHandle) then
        ⟨.error ("Unable to write file: " ++ newPath), st,
          tr1 ++ [(.writeStream newFileHandle, st.pause)]⟩
      else
        let tr2 := tr1 ++ [(.writeStream newFileHandle, st.pause),
                           (.closeStream newFileHandle, st.pause),
                           (.getFile newFileHandle, st.pause)]
        let newFile := disk.afterWrite newFileHandle content
        let newFileInfo : FileInfo :=
          { handle := newFileHandle, name := newFile.name,
            lastModified := newFile.lastModified, size := newFile.size,
            type := newFile.type, path := newPath, content := some content,
            opened := false }
        let trDel : List Tagged :=
          if replace then
            [(.removeEntry parentDirHandle source.name false, st.pause)]
          else []
        if replace ∧ !(disk.removeOk parentDirHandle source.name) then
          ⟨.error ("Unable to remove file: " ++ source.path), st, tr2 ++ trDel⟩
        else
          let st1 :=
            if replace then
              { st with files := st.files.erase source.path,
                        prevFiles := st.prevFiles.erase source.path,
                        fileCache :=
                          if source.opened then st.fileCache.erase source.path
                          else st.fileCache }
            else st
          ⟨.ok (),
            { st1 with files := st1.files.set newPath (.file newFileInfo),
                       prevFiles := st1.prevFiles.set newPath (.file newFileInfo) },
            tr2 ++ trDel⟩

/-- `doCopyDirectory(source, destination, parentDirHandle, newName,
newPath, replace)` (lines 1652–1703).  On success all three scratch
structures are swapped in wholesale, which also overwrites the live
deletions of the source path performed in the `replace` branch. -/
def doCopyDirectory (disk : Disk) (st : St) (source : DirectoryInfo)
    (destinationHandle parentDirHandle : String) (newName newPath : String)
    (replace : Bool) : OpResult Unit :=
  let newDirHandle := newPath
  let newDirInfo : DirectoryInfo :=
    { handle := newDirHandle, name := newName, path := newPath,
      loaded := source.loaded }
  let ctx0 : UpdCtx :=
    { filesMap := st.files.set newPath (.dir newDirInfo),
      watched :=
        if newDirInfo.loaded then st.watched.set newPath newDirHandle
        else st.watched,
      fileCache := st.fileCache,
      calls := [(.getDirectoryHandle destinationHandle newName true, st.pause)] }
  let ctx1 := updateDirectoryContents st.pause (disk.subtree source.handle)
    newDirHandle source.path newPath replace ctx0
  let trDel : List Tagged :=
    if replace then
      [(.removeEntry parentDirHandle source.name true, st.pause)]
    else []
  if replace ∧ !(disk.removeOk parentDirHandle source.name) then
    ⟨.error ("Unable to remove directory: " ++ source.path),
      { st with fileCache := ctx1.fileCache }, ctx1.calls ++ trDel⟩
  else
    ⟨.ok (),
      { st with files := ctx1.filesMap, prevFiles := ctx1.filesMap,
                watched := ctx1.watched, fileCache := ctx1.fileCache },
      ctx1.calls ++ trDel⟩

/-- `copyFile(path, destination, replace)` (lines 1541–1606).  The
string-prefix rejection `destination.startsWith(path)` runs before any
lookup turns into external work, and every validation precedes the pause
flag. -/
def copyFile (disk : Disk) (st : St) (path destination : String)
    (replace : Bool) : OpResult Unit :=
  if path = "" ∨ !(strContains path '/') then
    ⟨.error ("Invalid path: " ++ path), st, []⟩
  else if strStartsWith destination path then
    ⟨.error ("Destination directory is the subdirectory of the source: " ++ path),
      st, []⟩
  else
    match st.files.get destination with
    | some (.dir destDirInfo) =>
        match st.files.get path with
        | none => ⟨.error ("Source file or directory not found: " ++ path), st, []⟩
        | some oldEntryInfo =>
            let fileName := oldEntryInfo.name
            let newName :=
              getFileEntryName st.files (destDirInfo.path ++ "/" ++ fileName)
            let newPath := destDirInfo.path ++ "/" ++ newName
            if oldEntryInfo.isDir ∧ strStartsWith destDirInfo.path oldEntryInfo.path then
              ⟨.error "The destination folder is a subdirectory of the source directory.",
                st, []⟩
            else
              match ensureGetParentDirInfo st.files path with
              | .error e => ⟨.error e, st, []⟩
              | .ok parentDirInfo =>
                  let st1 := { st with pause := true }
                  let r : OpResult Unit :=
                    match oldEntryInfo with
                    | .file f =>
                        doCopyFile disk st1 f destDirInfo.handle
                          parentDirInfo.handle newName newPath replace
                    | .dir d =>
                        doCopyDirectory disk st1 d destDirInfo.handle
                          parentDirInfo.handle newName newPath replace
                  ⟨(match r.res with
                     | .ok v => .ok v
                     | .error _ =>
                         .error ("Unable to copy to " ++ destination)),
                   { r.st with pause := false }, r.calls⟩
    | _ => ⟨.error ("Destination directory not found: " ++ path), st, []⟩

/-! ### The poll cycle: `processFileNode` / `processFilteredEntries` -/

/-- `VirtualFileEntry`: a filtered walk result — kind plus handle (a
directory node also carries its handle's `name`). -/
inductive VNode where
  | file (handle : String)
  | dir (handle : String) (dirName : String)
deriving DecidableEq, Repr

/-- The accumulators of one `processFilteredEntries` run: the fresh
snapshot under construction, the three change sets, the content cache
(mutated directly by `processFileNode`), and `seenEntries`. -/
structure CycleAcc where
  files : Smap Entry
  addedEntries : Smap Entry
  modifiedEntries : Smap FileInfo
  fileCache : Smap CacheEntry
  seenEntries : List String
deriving Repr

/-- `processFileNode(path, node, files, timestamp, addedEntries,
modifiedEntries)` (lines 2059–2142).  `fdOf h` is the (assumed
successful) `getFile()` result for handle `h`; `cacheTime` and
`timestamp` are the cache TTL and `Date.now()` of the cycle. -/
def processFileNode (fdOf : String → FileData) (cacheTime timestamp : Nat)
    (prevFiles : Smap Entry) (path : String) (node : VNode) (acc : CycleAcc) :
    CycleAcc :=
  let prevEntry := prevFiles.get path
  let isNew := prevEntry.isNone
  match node with
  | .dir handle dirName =>
      let isLoaded :=
        match prevEntry with
        | some (.dir d) => d.loaded
        | _ => false
      let dirInfo : DirectoryInfo :=
        { name := dirName, path := path, handle := handle, loaded := isLoaded }
      { acc with
        addedEntries :=
          if isNew then acc.addedEntries.set path (.dir dirInfo)
          else acc.addedEntries,
        files := acc.files.set path (.dir dirInfo) }
  | .file handle =>
      let file := fdOf handle
      let cached := acc.fileCache.get path
      let isCached : Bool :=
        match cached with
        | some c => decide (timestamp - c.timestamp < cacheTime)
        | none => false
      let prevFile : Option FileInfo :=
        match prevEntry with
        | some (.file f) => some f
        | _ => none
      let isModified : Bool :=
        match prevFile with
        | some pf => decide (pf.lastModified ≠ file.lastModified)
        | none => false
      let isOpened : Bool := (prevFile.map (·.opened)).getD false
      let contentCache : Option String × Smap CacheEntry :=
        if isOpened then
          if !isCached || isModified then
            (some file.text, acc.fileCache.set path ⟨file.text, timestamp⟩)
          else (cached.map (·.content), acc.fileCache)
        else (none, acc.fileCache)
      let fileInfo : FileInfo :=
        { name := file.name, path := path, handle := handle, opened := isOpened,
          lastModified := file.lastModified, size := file.size, type := file.type,
          content := contentCache.1 }
      { acc with
        files := acc.files.set path (.file fileInfo),
        addedEntries :=
          if isNew then acc.addedEntries.set path (.file fileInfo)
          else acc.addedEntries,
        modifiedEntries :=
          if isModified then acc.modifiedEntries.set path fileInfo
          else acc.modifiedEntries,
        fileCache := contentCache.2 }

/-- The batched classification loop of `processFilteredEntries`
(lines 2153–2170), linearized: each path enters `seenEntries` and is
classified by `processFileNode`.  Batch boundaries carry no effect because
distinct batch elements have distinct map keys. -/
def cycleClassifyGo (fdOf : String → FileData) (cacheTime timestamp : Nat)
    (prevFiles : Smap Entry) : List (String × VNode) → CycleAcc → CycleAcc
  | [], acc => acc
  | (path, node) :: rest, acc =>
      cycleClassifyGo fdOf cacheTime timestamp prevFiles rest
        (processFileNode fdOf cacheTime timestamp prevFiles path node
          { acc with seenEntries := acc.seenEntries ++ [path] })

/-- The classification phase of one poll cycle, starting from empty
accumulators and the current content cache. -/
def cycleClassify (fdOf : String → FileData) (cacheTime timestamp : Nat)
    (prevFiles : Smap Entry) (cache0 : Smap CacheEntry)
    (entries : List (String × VNode)) : CycleAcc :=
  cycleClassifyGo fdOf cacheTime timestamp prevFiles entries
    ⟨[], [], [], cache0, []⟩

/-- The removal-detection loop of `processFilteredEntries`
(lines 2172–2189): previous-snapshot paths not seen this cycle are
deleted, and for directories every watch-index key at or under the path
is pruned. -/
def detectDeleted (seen : List String) :
    List (String × Entry) → Smap Entry → Smap String → Smap Entry × Smap String
  | [], del, watched => (del, watched)
  | (path, info) :: rest, del, watched =>
      if seen.contains path then detectDeleted seen rest del watched
      else
        match info with
        | .dir _ =>
            let prefixStr := if strEndsWith path "/" then path else path ++ "/"
            let watched' :=
              watched.filter (fun kv => !(kv.1 = path || strStartsWith kv.1 prefixStr))
            detectDeleted seen rest (del.set path info) watched'
        | .file _ => detectDeleted seen rest (del.set path info) watched

/-- The change sets of one cycle plus whether a publication happened. -/
structure CycleReport where
  addedEntries : Smap Entry
  deletedEntries : Smap Entry
  modifiedEntries : Smap FileInfo
  published : Bool
deriving Repr

/-- `processFilteredEntries(fileEntries)` (lines 2144–2228): classify,
detect removals, and — only when some change set is non-empty — fire the
callbacks and swap `previousFilesRef := filesRef; filesRef := files` plus
the memoized ignore state. -/
def processFilteredEntries (fdOf : String → FileData) (cacheTime timestamp : Nat)
    (entries : List (String × VNode)) (st : St) : St × CycleReport :=
  let acc := cycleClassify fdOf cacheTime timestamp st.prevFiles st.fileCache entries
  let dw := detectDeleted acc.seenEntries st.prevFiles [] st.watched
  let deletedEntries := dw.1
  let watched' := dw.2
  let hasChanges : Bool :=
    !acc.addedEntries.isEmpty || !deletedEntries.isEmpty ||
      !acc.modifiedEntries.isEmpty
  if hasChanges then
    ({ st with prevFiles := st.files, files := acc.files, watched := watched',
               fileCache := acc.fileCache, ignoredPaths := st.memoIgnoredPaths },
     ⟨acc.addedEntries, deletedEntries, acc.modifiedEntries, true⟩)
  else
    ({ st with watched := watched', fileCache := acc.fileCache },
     ⟨acc.addedEntries, deletedEntries, acc.modifiedEntries, false⟩)

/-- The interval callback installed by `registerFileWatcher`
(lines 2030–2043): a tick is a no-op while a cycle is in flight
(`processingTask`) or the pause flag is up; otherwise the pipeline runs
and the `finally` clears the in-flight slot whether or not the pipeline
failed.  The pipeline is a parameter mapping the state to an optional
internal error plus the (possibly partially updated) state. -/
def watcherTick (runCycle : St → Option String × St) (processingTask : Bool)
    (st : St) : Bool × St :=
  if processingTask || st.pause then (processingTask, st)
  else (false, (runCycle st).2)

/-! ### The tree loader: `loadDirectories` -/

/-- The state threaded through `loadDirectories`: the live index, the
ignored-path set, and the observation trace of every intermediate value
of the index map (one snapshot per map write). -/
structure LSt where
  files : Smap Entry
  ignoredPaths : List String
  snaps : List (Smap Entry)
deriving Repr

/-- One index-map write during a load, appending the written map to the
snapshot trace. -/
def LSt.write (st : LSt) (k : String) (e : Entry) : LSt :=
  let f := st.files.set k e
  { st with files := f, snaps := st.snaps ++ [f] }

/-- One ignored path during a load. -/
def LSt.addIgnored (st : LSt) (p : String) : LSt :=
  { st with ignoredPaths := st.ignoredPaths ++ [p] }

/-- The file-children phase of `loadDirectories` (lines 1766–1788),
linearized: each non-ignored file child is inserted with `opened = false`
and no content.  `ig` is the filter-pipeline decision by path. -/
def loadFiles (ig : String → Bool) :
    List (String × FileData) → String → LSt → LSt
  | [], _, st => st
  | (name, fd) :: rest, dirPath, st =>
      let fullPath := dirPath ++ "/" ++ name
      let st' :=
        if ig fullPath then st.addIgnored fullPath
        else
          st.write fullPath (.file
            { name := fd.name, handle := fullPath, path := fullPath,
              lastModified := fd.lastModified, size := fd.size, type := fd.type,
              opened := false, content := none })
      loadFiles ig rest dirPath st'

mutual

/-- `loadDirectories(dirHandle, dirPath, depth)` (lines 1738–1821).  The
directory entry is inserted up front — reusing a previous directory entry
when one exists, else fresh with `loaded = !(depth > 1)` — then file
children, then directory children (recursing only when `depth > 1`), and
finally the entry is re-written with `loaded = true`. -/
def loadDirectories (ig : String → Bool) :
    DiskTree → String → String → Nat → LSt → LSt
  | .node fs ds, dirName, dirPath, depth, st =>
      if ig dirPath then st.addIgnored dirPath
      else
        let isNode := depth > 1
        let entry : DirectoryInfo :=
          match st.files.get dirPath with
          | some (.dir d) => d
          | _ =>
              { name := dirName, handle := dirPath, path := dirPath,
                loaded := !isNode }
        let st1 := st.write dirPath (.dir entry)
        let st2 := loadFiles ig fs dirPath st1
        let st3 := loadSubdirs ig ds dirPath depth st2
        st3.write dirPath (.dir { entry with loaded := true })

/-- The directory-children phase of `loadDirectories` (lines 1790–1817),
linearized: with `depth > 1` each child is loaded recursively at
`depth - 1`; at depth 1 each non-ignored child is inserted as an unloaded
leaf. -/
def loadSubdirs (ig : String → Bool) :
    List (String × DiskTree) → String → Nat → LSt → LSt
  | [], _, _, st => st
  | (name, sub) :: rest, dirPath, depth, st =>
      let fullPath := dirPath ++ "/" ++ name
      let st' :=
        if depth > 1 then loadDirectories ig sub name fullPath (depth - 1) st
        else
          if ig fullPath then st.addIgnored fullPath
          else
            st.write fullPath (.dir
              { name := name, handle := fullPath, path := fullPath,
                loaded := false })
      loadSubdirs ig rest dirPath depth st'

end

/-! ### Stated invariants -/

/-- The data-model invariant for a single entry: a file entry carries
content exactly when it is opened (directories are unconstrained). -/
def entryContentIffOpened : Entry → Prop
  | .file f => f.content.isSome = true ↔ f.opened = true
  | .dir _ => True

instance : DecidablePred entryContentIffOpened := fun e =>
  match e with
  | .file _ => by unfold entryContentIffOpened; infer_instance
  | .dir _ => by unfold entryContentIffOpened; infer_instance

/-- Content-iff-opened over a whole index map. -/
def ContentIffOpened (m : Smap Entry) : Prop :=
  ∀ e ∈ m, entryContentIffOpened e.2

instance (m : Smap Entry) : Decidable (ContentIffOpened m) :=
  List.decidableBAll _ m

/-! ### Concrete fixtures used by witnesses and counterexamples -/

/-- A loaded root directory entry at path `"r"`. -/
def rootFx : DirectoryInfo := { name := "r", path := "r", handle := "r", loaded := true }

/-- A closed file entry at `"r/a.b"`. -/
def fileFx : FileInfo :=
  { name := "a.b", path := "r/a.b", handle := "r/a.b", size := 1,
    lastModified := 10, type := "t", content := none, opened := false }

/-- A small live state: loaded root plus one closed file. -/
def stFx : St :=
  { files := [("r", .dir rootFx), ("r/a.b", .file fileFx)],
    prevFiles := [("r", .dir rootFx), ("r/a.b", .file fileFx)],
    watched := [("r", "r")], fileCache := [], pause := false }

/-- An external store where every call succeeds. -/
def diskFx : Disk :=
  { file := fun h =>
      if h = "r/a.b" then some ⟨"a.b", 10, 1, "t", "hello"⟩
      else if h = "r/c.txt" then some ⟨"c.txt", 30, 0, "", ""⟩
      else none,
    writeOk := fun _ => true,
    afterWrite := fun h c => ⟨pathBaseName h, 20, c.length, "t", c⟩,
    removeOk := fun _ _ => true,
    subtree := fun _ => .node [] [] }

/-- Like `diskFx`, but the write stream to `"r/a.b"` rejects. -/
def diskWriteFailFx : Disk :=
  { diskFx with writeOk := fun h => h ≠ "r/a.b" }

/-- The loaded directory entry `"r/s"` of the recursive-delete scenario. -/
def subDirFx : DirectoryInfo := { name := "s", path := "r/s", handle := "r/s", loaded := true }

/-- The sibling file `"r/sway"` whose path extends `"r/s"` as a string. -/
def swayFx : FileInfo :=
  { name := "sway", path := "r/sway", handle := "r/sway", size := 2,
    lastModified := 11, type := "t", content := none, opened := false }

/-- The opened descendant file `"r/s/f"`. -/
def subFileFx : FileInfo :=
  { name := "f", path := "r/s/f", handle := "r/s/f", size := 3,
    lastModified := 12, type := "t", content := some "zz", opened := true }

/-- State for the recursive-delete scenario: root, loaded directory
`"r/s"`, the *sibling* file `"r/sway"` whose path merely extends `"r/s"`
as a string, and the opened descendant `"r/s/f"` with a cache entry. -/
def stDeleteFx : St :=
  { files := [("r", .dir rootFx), ("r/s", .dir subDirFx),
              ("r/sway", .file swayFx), ("r/s/f", .file subFileFx)],
    prevFiles := [("r", .dir rootFx), ("r/s", .dir subDirFx),
                  ("r/sway", .file swayFx), ("r/s/f", .file subFileFx)],
    watched := [("r", "r"), ("r/s", "r/s")],
    fileCache := [("r/s/f", ⟨"zz", 5⟩)], pause := false }

/-- `getFile` oracle for poll-cycle scenarios: `"r/a.b"` now has a newer
modification timestamp than the `stFx`/`cycleStFx` baseline. -/
def fdFx : String → FileData := fun h =>
  if h = "r/a.b" then ⟨"a.b", 20, 1, "t", "hello2"⟩
  else ⟨pathBaseName h, 50, 1, "t", "x"⟩

/-- Baseline state for the poll-cycle scenarios: the live index and the
previous snapshot both hold only the loaded root. -/
def cycleStFx : St :=
  { files := [("r", .dir rootFx)], prevFiles := [("r", .dir rootFx)],
    watched := [("r", "r")], fileCache := [], pause := false }

/-- Walk result for the snapshot-roll-forward scenario: the root plus one
new file `"r/n"`. -/
def cycleEntriesFx : List (String × VNode) :=
  [("r", .dir "r" "r"), ("r/n", .file "r/n")]

/-- The vanished file of the diff-completeness witness. -/
def goneFx : FileInfo :=
  { name := "gone", path := "r/gone", handle := "r/gone", size := 1,
    lastModified := 9, type := "t", content := none, opened := false }

/-- Previous snapshot for the diff-completeness witness: root, an opened
file `"r/a.b"` (timestamp 10), and a file `"r/gone"` that the walk no
longer sees. -/
def diffPrevFx : Smap Entry :=
  [("r", .dir rootFx),
   ("r/a.b", .file { fileFx with opened := true, content := some "hello" }),
   ("r/gone", .file goneFx)]

/-- Walk result for the diff-completeness witness: root, the surviving
`"r/a.b"`, and a new file `"r/new"`. -/
def diffEntriesFx : List (String × VNode) :=
  [("r", .dir "r" "r"), ("r/a.b", .file "r/a.b"), ("r/new", .file "r/new")]

/-- State for the diff-completeness witness: both maps at `diffPrevFx`,
an empty content cache. -/
def diffStFx : St :=
  { files := diffPrevFx, prevFiles := diffPrevFx, watched := [("r", "r")],
    fileCache := [], pause := false }

/-- Disk tree for the loader scenario: root containing one subdirectory
`"s"` which contains one file `"f"`. -/
def treeFx : DiskTree := .node [] [("s", .node [("f", ⟨"f", 5, 1, "t", "x"⟩)] [])]

/-- A depth-2 load of `treeFx` at root path `"r"` with no filter. -/
def loadRunFx : LSt := loadDirectories (fun _ => false) treeFx "r" "r" 2 ⟨[], [], []⟩

/-!
## Theorems

First the association-list map lemmas, then the per-claim results.
-/

theorem Smap.get_set_self {α : Type} (m : Smap α) (k : String) (v : α) :
    (m.set k v).get k = some v := by
  induction m with
  | nil => simp [Smap.set, Smap.get]
  | cons e rest ih =>
      by_cases h : e.1 = k
      · simp [Smap.set, h, Smap.get]
      · simp [Smap.set, h, Smap.get, ih]

theorem Smap.get_set_ne {α : Type} (m : Smap α) {k k' : String} (v : α) (h : k' ≠ k) :
    (m.set k v).get k' = m.get k' := by
  induction m with
  | nil => simp [Smap.set, Smap.get, Ne.symm h]
  | cons e rest ih =>
      by_cases he : e.1 = k
      · subst he
        simp [Smap.set, Smap.get, h, Ne.symm h]
      · by_cases he' : e.1 = k'
        · simp [Smap.set, he, Smap.get, he', h, Ne.symm h]
        · simp [Smap.set, he, Smap.get, he', ih]

theorem Smap.get_erase_self {α : Type} (m : Smap α) (k : String) :
    (m.erase k).get k = none := by
  induction m with
  | nil => simp [Smap.erase, Smap.get]
  | cons e rest ih =>
      by_cases h : e.1 = k
      · simpa [Smap.erase, h] using ih
      · simp [Smap.erase, h, Smap.get, ih]

theorem Smap.get_erase_ne {α : Type} (m : Smap α) {k k' : String} (h : k' ≠ k) :
    (m.erase k).get k' = m.get k' := by
  induction m with
  | nil => simp [Smap.erase, Smap.get]
  | cons e rest ih =>
      by_cases he : e.1 = k
      · have hne : e.1 ≠ k' := by rw [he]; exact Ne.symm h
        simp [Smap.erase, he, Smap.get, hne, ih, Ne.symm h]
      · by_cases he' : e.1 = k'
        · simp [Smap.erase, he, Smap.get, he', h, Ne.symm h]
        · simp [Smap.erase, he, Smap.get, he', ih]

theorem Smap.get_isSome_set {α : Type} (m : Smap α) (k k' : String) (v : α) :
    ((m.set k v).get k').isSome = true ↔ (k = k' ∨ (m.get k').isSome = true) := by
  by_cases h : k = k'
  · subst h; simp [Smap.get_set_self]
  · rw [Smap.get_set_ne m v (Ne.symm h)]
    simp [h]

theorem Smap.get_mem {α : Type} {m : Smap α} {k : String} {v : α}
    (h : m.get k = some v) : (k, v) ∈ m := by
  induction m with
  | nil => simp [Smap.get] at h
  | cons e rest ih =>
      by_cases he : e.1 = k
      · simp only [Smap.get, he, if_pos] at h
        subst he
        have : e = (e.1, v) := by
          cases e; simp_all
        rw [this] at *
        exact List.mem_cons_self _ _
      · simp [Smap.get, he] at h
        right
        exact ih h

theorem Smap.mem_set {α : Type} {m : Smap α} {k : String} {v : α} {e : String × α}
    (h : e ∈ m.set k v) : e ∈ m ∨ e = (k, v) := by
  induction m with
  | nil => simp [Smap.set] at h; simp [h]
  | cons e' rest ih =>
      by_cases he : e'.1 = k
      · simp only [Smap.set, he, if_pos] at h
        rcases List.mem_cons.mp h with h | h
        · right; simpa using h
        · left; exact List.mem_cons_of_mem _ h
      · simp only [Smap.set, he, if_neg, not_false_iff] at h
        rcases List.mem_cons.mp h with h | h
        · left; simp [h]
        · rcases ih h with h' | h'
          · left; exact List.mem_cons_of_mem _ h'
          · right; exact h'

theorem Smap.get_erase_isSome {α : Type} (m : Smap α) (k k' : String)
    (h : ((m.erase k).get k').isSome = true) : (m.get k').isSome = true := by
  by_cases hk : k' = k
  · subst hk; rw [Smap.get_erase_self] at h; simp at h
  · rwa [Smap.get_erase_ne m hk] at h

/-- C10: for every source path `p` and destination path `d`, `copyFile(p,
d, replace)` fails and performs no external-store call whenever `d` has
`p` as a string prefix — this covers descendant destinations, the
destination equal to the source, and siblings such as source `"root/sub"`
with destination `"root/subway"`, for file and directory sources alike. -/
theorem copy_prefix_reject_c10 (disk : Disk) (st : St) (path destination : String)
    (replace : Bool) (h : strStartsWith destination path = true) :
    (copyFile disk st path destination replace).res.isOk = false ∧
    (copyFile disk st path destination replace).calls = [] := by
  unfold copyFile
  split
  · simp [Except.isOk, Except.toBool]
  · simp [h, Except.isOk, Except.toBool]

/-- Witness for C10 at source `"r/sub"` and destination `"r/subway"`. -/
theorem copy_prefix_reject_c10_witness :
    strStartsWith "r/subway" "r/sub" = true ∧
    (copyFile diskFx stFx "r/sub" "r/subway" false).res.isOk = false ∧
    (copyFile diskFx stFx "r/sub" "r/subway" false).calls = [] :=
  ⟨by decide,
   (copy_prefix_reject_c10 diskFx stFx "r/sub" "r/subway" false (by decide)).1,
   (copy_prefix_reject_c10 diskFx stFx "r/sub" "r/subway" false (by decide)).2⟩

/-- C9: for a file entry at path `p` (keyed by its own path) whose read
succeeds, `openFile(p)` followed by `closeFile(p)` yields an entry with
`opened = false` and no content, leaves the stored entry in that shape,
and leaves no content-cache entry for `p`. -/
theorem open_close_roundtrip_c9 (disk : Disk) (st : St) (p : String)
    (f : FileInfo) (fd : FileData) (hp : p ≠ "")
    (hf : st.files.get p = some (.file f)) (hpath : f.path = p)
    (hd : disk.file f.handle = some fd) :
    (∃ fi, (closeFile disk (openFile disk st p).2 p).1 = .ok fi ∧
       fi.opened = false ∧ fi.content = none) ∧
    (∃ fi, (closeFile disk (openFile disk st p).2 p).2.files.get p =
       some (.file fi) ∧ fi.opened = false ∧ fi.content = none) ∧
    (closeFile disk (openFile disk st p).2 p).2.fileCache.get p = none := by
  subst hpath
  have hopen : (openFile disk st f.path).2 =
      { st with files := st.files.set f.path (.file
          { f with content := some fd.text, lastModified := fd.lastModified,
                   size := fd.size, type := fd.type, name := fd.name,
                   opened := true }) } := by
    simp [openFile, hp, toggleFileOpened, hf, hd]
  rw [hopen]
  have hget := Smap.get_set_self st.files f.path (Entry.file
    { f with content := some fd.text, lastModified := fd.lastModified,
             size := fd.size, type := fd.type, name := fd.name, opened := true })
  refine ⟨⟨{ f with name := fd.name, lastModified := fd.lastModified, size := fd.size, type := fd.type, content := none, opened := false }, ?_, rfl, rfl⟩, ⟨{ f with name := fd.name, lastModified := fd.lastModified, size := fd.size, type := fd.type, content := none, opened := false }, ?_, rfl, rfl⟩, ?_⟩
  · simp [closeFile, hp, toggleFileOpened, hget]
  · simp [closeFile, hp, toggleFileOpened, hget, Smap.get_set_self]
  · simp [closeFile, hp, toggleFileOpened, hget, Smap.get_erase_self]

/-- Witness for C9 at `stFx` and path `"r/a.b"`. -/
theorem open_close_roundtrip_c9_witness :
    (∃ fi, (closeFile diskFx (openFile diskFx stFx "r/a.b").2 "r/a.b").1 = .ok fi ∧
       fi.opened = false ∧ fi.content = none) ∧
    (∃ fi, (closeFile diskFx (openFile diskFx stFx "r/a.b").2 "r/a.b").2.files.get
       "r/a.b" = some (.file fi) ∧ fi.opened = false ∧ fi.content = none) ∧
    (closeFile diskFx (openFile diskFx stFx "r/a.b").2 "r/a.b").2.fileCache.get
      "r/a.b" = none :=
  open_close_roundtrip_c9 diskFx stFx "r/a.b" fileFx ⟨"a.b", 10, 1, "t", "hello"⟩
    (by decide) (by decide) (by decide) (by decide)

/-- C6: the claim that `renameFile(p, n)` with `n` equal to the entry's
current name leaves the Index path unchanged and deletes nothing is
contradicted by the code: on the state holding only `"r"` and `"r/a.b"`,
`renameFile("r/a.b", "a.b")` resolves the target name to `"a (2).b"`
(because `getFileEntryName` counts the source's own path as a collision),
issues `removeEntry("a.b")` on the parent — the guard that skips the
removal for a case-insensitively equal name can never fire — and moves
the Index entry to `"r/a (2).b"`. -/
theorem identical_rename_c6_bug :
    (renameFile diskFx stFx "r/a.b" "a.b").res.toOption = some (.file
      { name := "a (2).b", path := "r/a (2).b", handle := "r/a (2).b", size := 5,
        lastModified := 20, type := "t", content := some "hello",
        opened := false }) ∧
    ((renameFile diskFx stFx "r/a.b" "a.b").calls.map Prod.fst).contains
      (.removeEntry "r" "a.b" false) = true ∧
    (renameFile diskFx stFx "r/a.b" "a.b").st.files.get "r/a.b" = none ∧
    ((renameFile diskFx stFx "r/a.b" "a.b").st.files.get "r/a (2).b").isSome
      = true := by decide

/-- C2: the claim that after a publishing cycle the Previous Snapshot
equals the freshly built snapshot is contradicted by the code: the
publication step assigns `previousFilesRef := filesRef` *before*
`filesRef := files`, so on a cycle whose walk finds the new file `"r/n"`
the post-cycle live Index holds `"r/n"` while the post-cycle Previous
Snapshot is the pre-publication Index, which does not. -/
theorem snapshot_rollforward_c2_bug :
    ((processFilteredEntries fdFx 10000 100 cycleEntriesFx cycleStFx).2.published
      = true) ∧
    (((processFilteredEntries fdFx 10000 100 cycleEntriesFx cycleStFx).1.files.get
      "r/n").isSome = true) ∧
    ((processFilteredEntries fdFx 10000 100 cycleEntriesFx cycleStFx).1.prevFiles.get
      "r/n" = none) ∧
    ((processFilteredEntries fdFx 10000 100 cycleEntriesFx cycleStFx).1.prevFiles ≠
      (processFilteredEntries fdFx 10000 100 cycleEntriesFx cycleStFx).1.files) := by
  decide

theorem cio_set {m : Smap Entry} {k : String} {e : Entry}
    (h : ContentIffOpened m) (he : entryContentIffOpened e) :
    ContentIffOpened (m.set k e) := by
  intro x hx
  rcases Smap.mem_set hx with hm | hk
  · exact h x hm
  · rw [hk]; exact he

/-- C3: the content-iff-opened invariant does not survive `copyFile`: on
the invariant-satisfying state `stFx`, copying the closed file `"r/a.b"`
into the root succeeds and produces the entry `"r/a (2).b"` that carries
the copied content while `opened = false`. -/
theorem content_iff_opened_c3_cex :
    ContentIffOpened stFx.files ∧
    (copyFile diskFx stFx "r/a.b" "r" false).res.isOk = true ∧
    (copyFile diskFx stFx "r/a.b" "r" false).st.files.get "r/a (2).b" =
      some (.file
        { name := "a (2).b", path := "r/a (2).b", handle := "r/a (2).b",
          size := 5, lastModified := 20, type := "t", content := some "hello",
          opened := false }) ∧
    ¬ ContentIffOpened (copyFile diskFx stFx "r/a.b" "r" false).st.files := by
  decide

theorem toggleFileOpened_cio (disk : Disk) (st : St) (p : String) (b : Bool)
    (h : ContentIffOpened st.files) :
    ContentIffOpened (toggleFileOpened disk st p b).2.files := by
  unfold toggleFileOpened
  split
  · simpa using h
  · simpa using h
  · split
    · split
      · simpa using h
      · exact cio_set h (by simp [entryContentIffOpened])
    · split
      · exact cio_set h (by simp [entryContentIffOpened])
      · next fi _ hfo =>
          refine cio_set h ?_
          simp only [Bool.not_eq_true] at hfo
          simp [entryContentIffOpened, hfo]

theorem processFileNode_cio (fdOf : String → FileData) (ct ts : Nat)
    (prev : Smap Entry) (p : String) (node : VNode) (acc : CycleAcc)
    (h : ContentIffOpened acc.files) :
    ContentIffOpened (processFileNode fdOf ct ts prev p node acc).files := by
  unfold processFileNode
  cases node with
  | dir handle dirName =>
      refine cio_set h ?_
      simp [entryContentIffOpened]
  | file handle =>
      refine cio_set h ?_
      simp only [entryContentIffOpened]
      split
      · next h1 =>
          simp only [h1, iff_true]
          split
          · simp
          · next h2 =>
              rcases hcc : acc.fileCache.get p with _ | c
              · exfalso
                apply h2
                rw [Bool.or_eq_true]
                left
                simp [hcc]
              · simp [hcc]
      · next h1 =>
          simp only [Bool.not_eq_true] at h1
          simp [h1]

theorem cycleClassifyGo_cio (fdOf : String → FileData) (ct ts : Nat)
    (prev : Smap Entry) (l : List (String × VNode)) (acc : CycleAcc)
    (h : ContentIffOpened acc.files) :
    ContentIffOpened (cycleClassifyGo fdOf ct ts prev l acc).files := by
  induction l generalizing acc with
  | nil => simpa [cycleClassifyGo]
  | cons e rest ih =>
      obtain ⟨p, node⟩ := e
      simp only [cycleClassifyGo]
      exact ih _ (processFileNode_cio fdOf ct ts prev p node _ h)

theorem loadFiles_cio (ig : String → Bool) (fs : List (String × FileData))
    (dirPath : String) (st : LSt) (h : ContentIffOpened st.files) :
    ContentIffOpened (loadFiles ig fs dirPath st).files := by
  induction fs generalizing st with
  | nil => simpa [loadFiles]
  | cons e rest ih =>
      obtain ⟨name, fd⟩ := e
      simp only [loadFiles]
      split
      · exact ih _ (by simpa [LSt.addIgnored] using h)
      · refine ih _ (cio_set h ?_)
        simp [entryContentIffOpened]

mutual

theorem loadDirectories_cio (ig : String → Bool) (t : DiskTree) (n p : String)
    (d : Nat) (st : LSt) (h : ContentIffOpened st.files) :
    ContentIffOpened (loadDirectories ig t n p d st).files := by
  match t with
  | .node fs ds =>
      rw [loadDirectories]
      split
      · simpa [LSt.addIgnored]
      · refine cio_set ?_ ?_
        · exact loadSubdirs_cio ig ds p d _
            (loadFiles_cio ig fs p _ (cio_set h (by simp [entryContentIffOpened])))
        · simp [entryContentIffOpened]

theorem loadSubdirs_cio (ig : String → Bool) (ds : List (String × DiskTree))
    (p : String) (d : Nat) (st : LSt) (h : ContentIffOpened st.files) :
    ContentIffOpened (loadSubdirs ig ds p d st).files := by
  match ds with
  | [] => simpa [loadSubdirs]
  | (name, sub) :: rest =>
      rw [loadSubdirs]
      refine loadSubdirs_cio ig rest p d _ ?_
      split
      · exact loadDirectories_cio ig sub name (p ++ "/" ++ name) (d - 1) st h
      · split
        · simpa [LSt.addIgnored]
        · exact cio_set h (by simp [entryContentIffOpened])

end

/-- C3 (amended): content-iff-opened is preserved by `openFile` /
`closeFile` (`toggleFileOpened`), holds for every snapshot a poll cycle
builds, and is preserved by the tree loader — while `writeFile` with
data, `renameFile` and `copyFile` can break it (counterexample). -/
theorem content_iff_opened_c3_amended :
    (∀ (disk : Disk) (st : St) (p : String) (b : Bool),
       ContentIffOpened st.files →
       ContentIffOpened (toggleFileOpened disk st p b).2.files) ∧
    (∀ (fdOf : String → FileData) (ct ts : Nat) (prev : Smap Entry)
       (cache0 : Smap CacheEntry) (entries : List (String × VNode)),
       ContentIffOpened (cycleClassify fdOf ct ts prev cache0 entries).files) ∧
    (∀ (ig : String → Bool) (t : DiskTree) (n p : String) (d : Nat) (st : LSt),
       ContentIffOpened st.files →
       ContentIffOpened (loadDirectories ig t n p d st).files) := by
  refine ⟨toggleFileOpened_cio, ?_, loadDirectories_cio⟩
  intro fdOf ct ts prev cache0 entries
  exact cycleClassifyGo_cio fdOf ct ts prev entries _ (by intro e he; cases he)

/-- Witness for C3 (amended): the preservation statements applied at the
concrete `stFx` open/close and at the concrete depth-2 load. -/
theorem content_iff_opened_c3_amended_witness :
    ContentIffOpened (toggleFileOpened diskFx stFx "r/a.b" true).2.files ∧
    ContentIffOpened (loadDirectories (fun _ => false) treeFx "r" "r" 2
      ⟨[], [], []⟩).files :=
  ⟨content_iff_opened_c3_amended.1 diskFx stFx "r/a.b" true (by decide),
   content_iff_opened_c3_amended.2.2 (fun _ => false) treeFx "r" "r" 2
     ⟨[], [], []⟩ (by decide)⟩

/-- C4: the claim that *every* mutation operation sets the watcher-pause
flag for its duration is contradicted by `writeFile`: creating and
writing `"r/c.txt"` on `stFx` succeeds, performs external-store calls,
and every one of them is issued with the pause flag still `false` (the
same holds for `createDirectory`). -/
theorem watcher_pause_c4_cex :
    (writeFile diskFx 100 stFx "r/c.txt" {} (some "x")).res.isOk = true ∧
    (writeFile diskFx 100 stFx "r/c.txt" {} (some "x")).calls ≠ [] ∧
    ((writeFile diskFx 100 stFx "r/c.txt" {} (some "x")).calls.all
      (fun c => c.2 = false)) = true ∧
    ((createDirectory stFx "d" "r").calls.all (fun c => c.2 = false)) = true := by
  decide

theorem deleteFile_pause (disk : Disk) (st : St) (path : String) (rec : Bool)
    (h : st.pause = false) :
    (deleteFile disk st path rec).st.pause = false ∧
    ∀ c ∈ (deleteFile disk st path rec).calls, c.2 = true := by
  unfold deleteFile
  rcases hq : ensureGetParentDirInfo st.files path with e | pd
  all_goals simp only [hq]
  all_goals repeat' split
  all_goals refine ⟨by simp [h], ?_⟩
  all_goals intro c hc
  all_goals simp_all

theorem updFiles_calls (pz : Bool) (fs : List (String × FileData))
    (dh ob nb : String) (rep : Bool) (ctx : UpdCtx) :
    ∀ c ∈ (updFiles pz fs dh ob nb rep ctx).calls, c ∈ ctx.calls ∨ c.2 = pz := by
  induction fs generalizing ctx with
  | nil =>
      intro c hc
      simp only [updFiles] at hc
      exact Or.inl hc
  | cons e rest ih =>
      obtain ⟨name, fd⟩ := e
      intro c hc
      simp only [updFiles] at hc
      have hstep : ∀ x ∈ ctx.calls ++
          [(.getFile (ob ++ "/" ++ name), pz),
           (.getFileHandle dh name true, pz),
           (.createWritable (nb ++ "/" ++ name), pz),
           (.writeStream (nb ++ "/" ++ name), pz),
           (.closeStream (nb ++ "/" ++ name), pz)],
          x ∈ ctx.calls ∨ (x : Tagged).2 = pz := by
        intro x hx
        rcases List.mem_append.mp hx with hx | hx
        · exact Or.inl hx
        · right
          fin_cases hx <;> rfl
      rcases ih _ c hc with hin | htag
      · exact hstep _ hin
      · exact Or.inr htag

mutual

theorem updateDirectoryContents_calls (pz : Bool) (t : DiskTree)
    (dh ob nb : String) (rep : Bool) (ctx : UpdCtx) :
    ∀ c ∈ (updateDirectoryContents pz t dh ob nb rep ctx).calls,
      c ∈ ctx.calls ∨ c.2 = pz := by
  match t with
  | .node fs ds =>
      rw [updateDirectoryContents]
      intro c hc
      rcases updDirs_calls pz ds dh ob nb rep _ c hc with hin | htag
      · exact updFiles_calls pz fs dh ob nb rep ctx c hin
      · exact Or.inr htag

theorem updDirs_calls (pz : Bool) (ds : List (String × DiskTree))
    (dh ob nb : String) (rep : Bool) (ctx : UpdCtx) :
    ∀ c ∈ (updDirs pz ds dh ob nb rep ctx).calls, c ∈ ctx.calls ∨ c.2 = pz := by
  match ds with
  | [] =>
      intro c hc
      simp only [updDirs] at hc
      exact Or.inl hc
  | (name, sub) :: rest =>
      rw [updDirs]
      intro c hc
      have hstep : ∀ x ∈ ctx.calls ++ [(.getDirectoryHandle dh name true, pz)],
          x ∈ ctx.calls ∨ (x : Tagged).2 = pz := by
        intro x hx
        rcases List.mem_append.mp hx with hx | hx
        · exact Or.inl hx
        · right
          fin_cases hx
          rfl
      rcases updDirs_calls pz rest dh ob nb rep _ c hc with hin | htag
      · rcases updateDirectoryContents_calls pz sub (nb ++ "/" ++ name)
          (ob ++ "/" ++ name) (nb ++ "/" ++ name) true _ c hin with hin2 | htag2
        · exact hstep _ hin2
        · exact Or.inr htag2
      · exact Or.inr htag

end

theorem forall_tag_append {b : Bool} {l1 l2 : List Tagged}
    (h1 : ∀ c ∈ l1, c.2 = b) (h2 : ∀ c ∈ l2, c.2 = b) :
    ∀ c ∈ l1 ++ l2, c.2 = b := by
  intro c hc
  rcases List.mem_append.mp hc with h | h
  · exact h1 c h
  · exact h2 c h

theorem doRenameFile_calls (disk : Disk) (st : St) (f : FileInfo)
    (pd : DirectoryInfo) (name path : String) :
    ∀ c ∈ (doRenameFile disk st f pd name path).calls, c.2 = st.pause := by
  intro c hc
  simp only [doRenameFile] at hc
  repeat' split at hc
  all_goals obtain ⟨ce, cb⟩ := c
  all_goals simp [Prod.mk.injEq] at hc ⊢
  all_goals tauto

theorem doRenameDirectory_calls (disk : Disk) (st : St) (d : DirectoryInfo)
    (pd : DirectoryInfo) (name path : String) :
    ∀ c ∈ (doRenameDirectory disk st d pd name path).calls, c.2 = st.pause := by
  intro c hc
  simp only [doRenameDirectory] at hc
  repeat' split at hc
  all_goals revert hc
  all_goals revert c
  all_goals repeat' refine forall_tag_append ?_ ?_
  all_goals first
    | (intro c hc;
       exact (updateDirectoryContents_calls st.pause (disk.subtree d.handle)
         path d.path path true _ c hc).elim (fun h => absurd h (by simp)) id)
    | (intro c hc; obtain ⟨ce, cb⟩ := c; simp [Prod.mk.injEq] at hc ⊢;
       first | done | tauto)

theorem doCopyFile_calls (disk : Disk) (st : St) (source : FileInfo)
    (dh ph : String) (newName newPath : String) (replace : Bool) :
    ∀ c ∈ (doCopyFile disk st source dh ph newName newPath replace).calls,
      c.2 = st.pause := by
  intro c hc
  simp only [doCopyFile] at hc
  repeat' split at hc
  all_goals obtain ⟨ce, cb⟩ := c
  all_goals simp [Prod.mk.injEq] at hc ⊢
  all_goals first | done | tauto

theorem doCopyDirectory_calls (disk : Disk) (st : St) (source : DirectoryInfo)
    (dh ph : String) (newName newPath : String) (replace : Bool) :
    ∀ c ∈ (doCopyDirectory disk st source dh ph newName newPath replace).calls,
      c.2 = st.pause := by
  intro c hc
  simp only [doCopyDirectory] at hc
  repeat' split at hc
  all_goals revert hc
  all_goals revert c
  all_goals repeat' refine forall_tag_append ?_ ?_
  all_goals first
    | (intro c hc;
       refine (updateDirectoryContents_calls st.pause _ _ _ _ _ _ c hc).elim
         (fun hm => ?_) id;
       simp at hm; rw [hm])
    | (intro c hc; obtain ⟨ce, cb⟩ := c; simp [Prod.mk.injEq] at hc ⊢;
       first | done | tauto)

theorem renameFile_pause (disk : Disk) (st : St) (path newName0 : String)
    (h : st.pause = false) :
    (renameFile disk st path newName0).st.pause = false ∧
    ∀ c ∈ (renameFile disk st path newName0).calls, c.2 = true := by
  constructor
  · simp only [renameFile]
    repeat' split
    all_goals simp [h]
  · intro c hc
    simp only [renameFile] at hc
    repeat' split at hc
    all_goals dsimp only at hc
    all_goals first
      | simp at hc
      | (have hu := doRenameFile_calls _ _ _ _ _ _ c hc; simpa using hu)
      | (have hu := doRenameDirectory_calls _ _ _ _ _ _ c hc; simpa using hu)

theorem copyFile_pause (disk : Disk) (st : St) (path destination : String)
    (replace : Bool) (h : st.pause = false) :
    (copyFile disk st path destination replace).st.pause = false ∧
    ∀ c ∈ (copyFile disk st path destination replace).calls, c.2 = true := by
  constructor
  · simp only [copyFile]
    repeat' split
    all_goals simp [h]
  · intro c hc
    simp only [copyFile] at hc
    repeat' split at hc
    all_goals dsimp only at hc
    all_goals first
      | simp at hc
      | (have hu := doCopyFile_calls _ _ _ _ _ _ _ _ c hc; simpa using hu)
      | (have hu := doCopyDirectory_calls _ _ _ _ _ _ _ _ c hc; simpa using hu)

theorem writeFileBody_pause (disk : Disk) (now : Nat) (st : St)
    (pd : DirectoryInfo) (name path : String) (create : Bool)
    (openOpt : Option Bool) (data : Option String) :
    (writeFileBody disk now st pd name path create openOpt data).st.pause
      = st.pause ∧
    ∀ c ∈ (writeFileBody disk now st pd name path create openOpt data).calls,
      c.2 = st.pause := by
  constructor
  · simp only [writeFileBody]
    repeat' split
    all_goals simp
  · intro c hc
    simp only [writeFileBody] at hc
    repeat' split at hc
    all_goals obtain ⟨ce, cb⟩ := c
    all_goals simp [Prod.mk.injEq] at hc ⊢
    all_goals first | done | tauto

theorem writeFile_pause (disk : Disk) (now : Nat) (st : St) (path0 : String)
    (opts : WriteFileOptions) (data : Option String) :
    (writeFile disk now st path0 opts data).st.pause = st.pause ∧
    ∀ c ∈ (writeFile disk now st path0 opts data).calls, c.2 = st.pause := by
  constructor
  · simp only [writeFile]
    repeat' split
    all_goals first
      | simp
      | exact (writeFileBody_pause _ _ _ _ _ _ _ _ _).1
  · intro c hc
    simp only [writeFile] at hc
    repeat' split at hc
    all_goals first
      | simp at hc
      | exact (writeFileBody_pause _ _ _ _ _ _ _ _ _).2 c hc

theorem createDirectory_pause (st : St) (name0 parentPath : String) :
    (createDirectory st name0 parentPath).st.pause = st.pause ∧
    ∀ c ∈ (createDirectory st name0 parentPath).calls, c.2 = st.pause := by
  constructor
  · simp only [createDirectory]
    repeat' split
    all_goals simp
  · intro c hc
    simp only [createDirectory] at hc
    repeat' split at hc
    all_goals obtain ⟨ce, cb⟩ := c
    all_goals simp [Prod.mk.injEq] at hc ⊢
    all_goals first | done | tauto

/-- C4 (amended): a timer tick that fires while the pause flag is set or
a cycle is in flight performs no work, and a tick that does run returns
the in-flight slot to idle even when the pipeline fails internally;
`deleteFile`, `renameFile` and `copyFile` raise the pause flag for the
duration of their external calls and clear it on success and on failure —
but `writeFile` and `createDirectory` never touch the pause flag: every
external call they make carries the caller's (normally `false`) flag
(counterexample). -/
theorem watcher_pause_c4_amended :
    (∀ (runCycle : St → Option String × St) (task : Bool) (st : St),
       (task || st.pause) = true → watcherTick runCycle task st = (task, st)) ∧
    (∀ (runCycle : St → Option String × St) (st : St),
       (watcherTick runCycle false st).1 = false) ∧
    (∀ (disk : Disk) (st : St) (path : String) (rec : Bool), st.pause = false →
       (deleteFile disk st path rec).st.pause = false ∧
       ∀ c ∈ (deleteFile disk st path rec).calls, c.2 = true) ∧
    (∀ (disk : Disk) (st : St) (path newName0 : String), st.pause = false →
       (renameFile disk st path newName0).st.pause = false ∧
       ∀ c ∈ (renameFile disk st path newName0).calls, c.2 = true) ∧
    (∀ (disk : Disk) (st : St) (path destination : String) (replace : Bool),
       st.pause = false →
       (copyFile disk st path destination replace).st.pause = false ∧
       ∀ c ∈ (copyFile disk st path destination replace).calls, c.2 = true) ∧
    (∀ (disk : Disk) (now : Nat) (st : St) (path0 : String)
       (opts : WriteFileOptions) (data : Option String),
       (writeFile disk now st path0 opts data).st.pause = st.pause ∧
       ∀ c ∈ (writeFile disk now st path0 opts data).calls, c.2 = st.pause) ∧
    (∀ (st : St) (name0 parentPath : String),
       (createDirectory st name0 parentPath).st.pause = st.pause ∧
       ∀ c ∈ (createDirectory st name0 parentPath).calls, c.2 = st.pause) := by
  refine ⟨?_, ?_, deleteFile_pause, renameFile_pause, copyFile_pause,
    writeFile_pause, createDirectory_pause⟩
  · intro runCycle task st htp
    unfold watcherTick
    rw [if_pos htp]
  · intro runCycle st
    unfold watcherTick
    split
    · next htp => simpa using htp
    · rfl

/-- Witness for C4 (amended) at the concrete `stFx`. -/
theorem watcher_pause_c4_amended_witness :
    watcherTick (fun s => (none, s)) true stFx = (true, stFx) ∧
    (deleteFile diskFx stFx "r/a.b" false).st.pause = false ∧
    (renameFile diskFx stFx "r/a.b" "b.b").st.pause = false ∧
    (copyFile diskFx stFx "r/a.b" "r" false).st.pause = false :=
  ⟨watcher_pause_c4_amended.1 (fun s => (none, s)) true stFx (by decide),
   (watcher_pause_c4_amended.2.2.1 diskFx stFx "r/a.b" false (by decide)).1,
   (watcher_pause_c4_amended.2.2.2.1 diskFx stFx "r/a.b" "b.b" (by decide)).1,
   (watcher_pause_c4_amended.2.2.2.2.1 diskFx stFx "r/a.b" "r" false (by decide)).1⟩

/-- C5: the claim that a recursive delete leaves every non-descendant
entry unchanged and purges descendant cache entries is contradicted by
the code: deleting the directory `"r/s"` also purges the *sibling*
`"r/sway"` (the purge matches by string prefix, not path boundary), while
the cache entry of the true descendant `"r/s/f"` survives. -/
theorem recursive_delete_c5_cex :
    (deleteFile diskFx stDeleteFx "r/s" true).res.isOk = true ∧
    stDeleteFx.files.get "r/sway" = some (.file swayFx) ∧
    (deleteFile diskFx stDeleteFx "r/s" true).st.files.get "r/sway" = none ∧
    ((deleteFile diskFx stDeleteFx "r/s" true).st.fileCache.get "r/s/f").isSome
      = true := by
  decide

theorem strStartsWith_self (s : String) : strStartsWith s s = true := by
  unfold strStartsWith
  induction s.data with
  | nil => rfl
  | cons c rest ih => simpa [List.isPrefixOf] using ih

theorem purge_fileCache (p : String) (l : List (String × Entry)) (st : St) :
    (deleteSubDirectoriesPurge p l st).fileCache = st.fileCache := by
  induction l generalizing st with
  | nil => rfl
  | cons e rest ih =>
      obtain ⟨key, ent⟩ := e
      simp only [deleteSubDirectoriesPurge]
      split
      · exact ih st
      · split
        · split
          · exact ih _
          · exact ih _
        · exact ih _

theorem purge_files_none_mono (p : String) (l : List (String × Entry)) (st : St)
    (k : String) (h : st.files.get k = none) :
    (deleteSubDirectoriesPurge p l st).files.get k = none := by
  induction l generalizing st with
  | nil => exact h
  | cons e rest ih =>
      obtain ⟨key, ent⟩ := e
      simp only [deleteSubDirectoriesPurge]
      split
      · exact ih st h
      · have herase : ∀ (m : Smap Entry), m.get k = none → (m.erase key).get k = none := by
          intro m hm
          by_cases hk : k = key
          · subst hk; exact Smap.get_erase_self m k
          · rwa [Smap.get_erase_ne m hk]
        split
        · split
          · exact ih _ (herase _ h)
          · exact ih _ (herase _ h)
        · exact ih _ (herase _ h)

theorem purge_prevFiles_none_mono (p : String) (l : List (String × Entry)) (st : St)
    (k : String) (h : st.prevFiles.get k = none) :
    (deleteSubDirectoriesPurge p l st).prevFiles.get k = none := by
  induction l generalizing st with
  | nil => exact h
  | cons e rest ih =>
      obtain ⟨key, ent⟩ := e
      simp only [deleteSubDirectoriesPurge]
      split
      · exact ih st h
      · have herase : ∀ (m : Smap Entry), m.get k = none → (m.erase key).get k = none := by
          intro m hm
          by_cases hk : k = key
          · subst hk; exact Smap.get_erase_self m k
          · rwa [Smap.get_erase_ne m hk]
        split
        · split
          · exact ih _ (herase _ h)
          · exact ih _ (herase _ h)
        · exact ih _ (herase _ h)

theorem purge_files_mem_none (p : String) (l : List (String × Entry)) (st : St)
    (k : String) (hk : strStartsWith k p = true)
    (hin : ∃ e, (k, e) ∈ l) :
    (deleteSubDirectoriesPurge p l st).files.get k = none := by
  induction l generalizing st with
  | nil => obtain ⟨e, he⟩ := hin; cases he
  | cons hd rest ih =>
      obtain ⟨key, ent⟩ := hd
      obtain ⟨e, he⟩ := hin
      by_cases hkey : k = key
      · subst hkey
        rcases ent with f | d
        · simp only [deleteSubDirectoriesPurge]
          split
          · next hskip =>
              exfalso
              have hfalse : strStartsWith k p = false := by simpa using hskip.2
              rw [hk] at hfalse
              cases hfalse
          · exact purge_files_none_mono p rest _ k (Smap.get_erase_self _ k)
        · simp only [deleteSubDirectoriesPurge]
          split
          · next hskip =>
              exfalso
              have hfalse : strStartsWith k p = false := by simpa using hskip.2
              rw [hk] at hfalse
              cases hfalse
          · split
            · exact purge_files_none_mono p rest _ k (Smap.get_erase_self _ k)
            · exact purge_files_none_mono p rest _ k (Smap.get_erase_self _ k)
      · have he' : (k, e) ∈ rest := by
          rcases List.mem_cons.mp he with he | he
          · exact absurd (by simpa using congrArg Prod.fst he) hkey
          · exact he
        rcases ent with f | d
        · simp only [deleteSubDirectoriesPurge]
          split
          · exact ih st ⟨e, he'⟩
          · exact ih _ ⟨e, he'⟩
        · simp only [deleteSubDirectoriesPurge]
          split
          · exact ih st ⟨e, he'⟩
          · split
            · exact ih _ ⟨e, he'⟩
            · exact ih _ ⟨e, he'⟩

theorem purge_prevFiles_mem_none (p : String) (l : List (String × Entry)) (st : St)
    (k : String) (hk : strStartsWith k p = true)
    (hin : ∃ e, (k, e) ∈ l) :
    (deleteSubDirectoriesPurge p l st).prevFiles.get k = none := by
  induction l generalizing st with
  | nil => obtain ⟨e, he⟩ := hin; cases he
  | cons hd rest ih =>
      obtain ⟨key, ent⟩ := hd
      obtain ⟨e, he⟩ := hin
      by_cases hkey : k = key
      · subst hkey
        rcases ent with f | d
        · simp only [deleteSubDirectoriesPurge]
          split
          · next hskip =>
              exfalso
              have hfalse : strStartsWith k p = false := by simpa using hskip.2
              rw [hk] at hfalse
              cases hfalse
          · exact purge_prevFiles_none_mono p rest _ k (Smap.get_erase_self _ k)
        · simp only [deleteSubDirectoriesPurge]
          split
          · next hskip =>
              exfalso
              have hfalse : strStartsWith k p = false := by simpa using hskip.2
              rw [hk] at hfalse
              cases hfalse
          · split
            · exact purge_prevFiles_none_mono p rest _ k (Smap.get_erase_self _ k)
            · exact purge_prevFiles_none_mono p rest _ k (Smap.get_erase_self _ k)
      · have he' : (k, e) ∈ rest := by
          rcases List.mem_cons.mp he with he | he
          · exact absurd (by simpa using congrArg Prod.fst he) hkey
          · exact he
        rcases ent with f | d
        · simp only [deleteSubDirectoriesPurge]
          split
          · exact ih st ⟨e, he'⟩
          · exact ih _ ⟨e, he'⟩
        · simp only [deleteSubDirectoriesPurge]
          split
          · exact ih st ⟨e, he'⟩
          · split
            · exact ih _ ⟨e, he'⟩
            · exact ih _ ⟨e, he'⟩

theorem purge_frame (p : String) (l : List (String × Entry)) (st : St)
    (k : String) (hk : strStartsWith k p = false) :
    (deleteSubDirectoriesPurge p l st).files.get k = st.files.get k ∧
    (deleteSubDirectoriesPurge p l st).prevFiles.get k = st.prevFiles.get k := by
  induction l generalizing st with
  | nil => exact ⟨rfl, rfl⟩
  | cons hd rest ih =>
      obtain ⟨key, ent⟩ := hd
      have hkne : ∀ (hkeyp : strStartsWith key p = true), k ≠ key := by
        intro hkeyp hke
        rw [hke, hkeyp] at hk
        cases hk
      rcases ent with f | d
      · simp only [deleteSubDirectoriesPurge]
        split
        · exact ih st
        · next hskip =>
            have hkeyp : strStartsWith key p = true := by
              rcases Decidable.em (key = p) with h | h
              · rw [h]; exact strStartsWith_self p
              · rcases Decidable.not_and_iff_or_not.mp hskip with h' | h'
                · exact absurd h h'.elim
                · simpa using h'
            constructor
            · rw [(ih _).1]
              exact Smap.get_erase_ne _ (hkne hkeyp)
            · rw [(ih _).2]
              exact Smap.get_erase_ne _ (hkne hkeyp)
      · simp only [deleteSubDirectoriesPurge]
        split
        · exact ih st
        · next hskip =>
            have hkeyp : strStartsWith key p = true := by
              rcases Decidable.em (key = p) with h | h
              · rw [h]; exact strStartsWith_self p
              · rcases Decidable.not_and_iff_or_not.mp hskip with h' | h'
                · exact absurd h h'.elim
                · simpa using h'
            split
            · constructor
              · rw [(ih _).1]
                exact Smap.get_erase_ne _ (hkne hkeyp)
              · rw [(ih _).2]
                exact Smap.get_erase_ne _ (hkne hkeyp)
            · constructor
              · rw [(ih _).1]
                exact Smap.get_erase_ne _ (hkne hkeyp)
              · rw [(ih _).2]
                exact Smap.get_erase_ne _ (hkne hkeyp)

/-- C5 (amended): a successful `deleteFile(p, recursive = true)` on a
non-root directory purges from the live Index every entry whose path has
`p` as a **string prefix** — which includes sibling paths such as
`"r/sway"` for target `"r/s"` — while the Previous Snapshot loses the
target entry and every string-prefix key that was present in the live
Index (the purge loop iterates only the live index, so a prefix key
present only in the Previous Snapshot survives there); every entry whose
path does not extend `p` as a string is unchanged in both maps; the
Content Cache is not touched at all (descendant cache entries survive);
deleting the root path is rejected with no external call. -/
theorem recursive_delete_c5_amended :
    (∀ (disk : Disk) (st : St) (p : String) (d : DirectoryInfo)
       (pd : DirectoryInfo),
       st.files.get p = some (.dir d) → d.path = p →
       isRootFilePath p = false →
       st.files.get (getParentFilePath p) = some (.dir pd) →
       disk.removeOk pd.handle d.name = true →
       (deleteFile disk st p true).res.isOk = true ∧
       (∀ k, strStartsWith k p = true →
          (deleteFile disk st p true).st.files.get k = none) ∧
       (∀ k, strStartsWith k p = false →
          (deleteFile disk st p true).st.files.get k = st.files.get k ∧
          (deleteFile disk st p true).st.prevFiles.get k = st.prevFiles.get k) ∧
       (deleteFile disk st p true).st.prevFiles.get p = none ∧
       (deleteFile disk st p true).st.fileCache = st.fileCache ∧
       (∀ k, strStartsWith k p = true → (st.files.get k).isSome = true →
          (deleteFile disk st p true).st.prevFiles.get k = none)) ∧
    (∀ (disk : Disk) (st : St) (p : String) (rec : Bool),
       isRootFilePath p = true →
       (deleteFile disk st p rec).res.isOk = false ∧
       (deleteFile disk st p rec).calls = []) := by
  constructor
  · intro disk st p d pd hp hdp hroot hpar hrem
    have hpne : ¬(p = "") := by
      intro h
      rw [h] at hroot
      simp [isRootFilePath, strContains] at hroot
    have hensure : ensureGetParentDirInfo st.files p = .ok pd := by
      simp only [ensureGetParentDirInfo]
      rw [hpar]
    obtain ⟨W, hWf, hWp, hWc, hred⟩ :
        ∃ W : St, W.files = st.files.erase p ∧
          W.prevFiles = st.prevFiles.erase p ∧
          W.fileCache = st.fileCache ∧
          deleteFile disk st p true =
            ⟨.ok (), { (deleteSubDirectoriesPurge p W.files W) with pause := false },
              [(.removeEntry pd.handle d.name true, true)]⟩ := by
      rcases hld : d.loaded with _ | _
      · refine ⟨{ st with files := st.files.erase p,
                          prevFiles := st.prevFiles.erase p, pause := true },
          rfl, rfl, rfl, ?_⟩
        simp [deleteFile, hpne, hp, hroot, hensure, hrem, hld, hdp, Entry.isDir, Entry.name, Entry.path]
      · refine ⟨{ st with files := st.files.erase p,
                          prevFiles := st.prevFiles.erase p, pause := true,
                          watched := st.watched.erase p },
          rfl, rfl, rfl, ?_⟩
        simp [deleteFile, hpne, hp, hroot, hensure, hrem, hld, hdp, Entry.isDir, Entry.name, Entry.path]
    rw [hred]
    refine ⟨rfl, ?_, ?_, ?_, ?_, ?_⟩
    · intro k hk
      show (deleteSubDirectoriesPurge p W.files W).files.get k = none
      rcases hg : (Smap.get W.files k) with _ | v
      · exact purge_files_none_mono p _ _ k (by rw [hWf]; rw [hWf] at hg; exact hg)
      · exact purge_files_mem_none p _ _ k hk ⟨v, Smap.get_mem hg⟩
    · intro k hk
      have hne : k ≠ p := by
        intro hke
        rw [hke, strStartsWith_self p] at hk
        cases hk
      have hfr := purge_frame p W.files W k hk
      constructor
      · show (deleteSubDirectoriesPurge p W.files W).files.get k = st.files.get k
        rw [hfr.1, hWf]
        exact Smap.get_erase_ne _ hne
      · show (deleteSubDirectoriesPurge p W.files W).prevFiles.get k =
            st.prevFiles.get k
        rw [hfr.2, hWp]
        exact Smap.get_erase_ne _ hne
    · show (deleteSubDirectoriesPurge p W.files W).prevFiles.get p = none
      apply purge_prevFiles_none_mono
      rw [hWp]
      exact Smap.get_erase_self _ p
    · show (deleteSubDirectoriesPurge p W.files W).fileCache = st.fileCache
      rw [purge_fileCache, hWc]
    · intro k hk hsome
      show (deleteSubDirectoriesPurge p W.files W).prevFiles.get k = none
      by_cases hkp : k = p
      · subst hkp
        apply purge_prevFiles_none_mono
        rw [hWp]
        exact Smap.get_erase_self _ k
      · have hW : (W.files.get k).isSome = true := by
          rw [hWf, Smap.get_erase_ne st.files hkp]
          exact hsome
        obtain ⟨v, hv⟩ := Option.isSome_iff_exists.mp hW
        exact purge_prevFiles_mem_none p W.files W k hk ⟨v, Smap.get_mem hv⟩
  · intro disk st p rec hroot
    unfold deleteFile
    repeat' split
    all_goals first
      | exact ⟨rfl, rfl⟩
      | simp_all

/-- Witness for C5 (amended) at `stDeleteFx`: the descendant `"r/s/f"` is
gone from the live Index after the delete, it is also gone from the
Previous Snapshot (it was a live-index key), and deleting the root is
rejected without any external call. -/
theorem recursive_delete_c5_amended_witness :
    (deleteFile diskFx stDeleteFx "r/s" true).st.files.get "r/s/f" = none ∧
    (deleteFile diskFx stDeleteFx "r/s" true).st.prevFiles.get "r/s/f" = none ∧
    (deleteFile diskFx stDeleteFx "r" true).calls = [] :=
  ⟨(recursive_delete_c5_amended.1 diskFx stDeleteFx "r/s" subDirFx rootFx
      (by decide) (by decide) (by decide) (by decide) (by decide)).2.1 "r/s/f"
      (by decide),
   (recursive_delete_c5_amended.1 diskFx stDeleteFx "r/s" subDirFx rootFx
      (by decide) (by decide) (by decide) (by decide) (by decide)).2.2.2.2.2
      "r/s/f" (by decide) (by decide),
   (recursive_delete_c5_amended.2 diskFx stDeleteFx "r" true (by decide)).2⟩

/-- C7 (counterexample): `writeFile("r/a.b", {create: false, open: true},
"x")` against a store whose write stream rejects fails and aborts the
stream, but the Index is **not** left unchanged: the in-place
`fileInfo.opened = open` mutation (line 1272) ran before the failed
write, so the target entry's `opened` flag has flipped from `false` to
`true`. -/
theorem writefile_atomicity_c7_cex :
    (writeFile diskWriteFailFx 100 stFx "r/a.b"
        { create := some false, openOpt := some true, keepData := none }
        (some "x")).res.isOk = false ∧
    ((ExtCall.abortStream "r/a.b", false) ∈
      (writeFile diskWriteFailFx 100 stFx "r/a.b"
        { create := some false, openOpt := some true, keepData := none }
        (some "x")).calls) ∧
    stFx.files.get "r/a.b" = some (.file fileFx) ∧
    fileFx.opened = false ∧
    (writeFile diskWriteFailFx 100 stFx "r/a.b"
        { create := some false, openOpt := some true, keepData := none }
        (some "x")).st.files.get "r/a.b" =
      some (.file { fileFx with opened := true }) := by decide

/-- C7 (amended): `writeFile` rejects an empty or root-level path before
any external call and leaves the state untouched; on a failed write to
the writable stream the stream is aborted and the call fails, and the
Index is unchanged **except** that, when the call was made with
`create = false` and `open = true` on a file whose `opened` flag was
`false`, that entry's `opened` flag has been set to `true` (the line-1272
in-place mutation); on the `create` route the Index is fully unchanged by
the failed write. -/
theorem writefile_atomicity_c7_amended :
    (∀ (disk : Disk) (now : Nat) (st : St) (p : String)
       (opts : WriteFileOptions) (data : Option String),
       (p = "" ∨ isRootFilePath p = true) →
       (writeFile disk now st p opts data).res.isOk = false ∧
       (writeFile disk now st p opts data).calls = [] ∧
       (writeFile disk now st p opts data).st = st) ∧
    (∀ (disk : Disk) (now : Nat) (st : St) (p : String)
       (opts : WriteFileOptions) (pd : DirectoryInfo) (fi : FileInfo)
       (dt : String),
       opts.create = some false →
       p ≠ "" → isRootFilePath p = false →
       st.files.get (getParentFilePath p) = some (.dir pd) →
       pathBaseName p ≠ "" →
       st.files.get p = some (.file fi) →
       disk.writeOk p = false →
       (writeFile disk now st p opts (some dt)).res.isOk = false ∧
       (ExtCall.abortStream p, st.pause) ∈
         (writeFile disk now st p opts (some dt)).calls ∧
       (writeFile disk now st p opts (some dt)).st =
         (if opts.openOpt = some true ∧ fi.opened ≠ true then
            { st with files := st.files.set p (.file { fi with opened := true }) }
          else st)) ∧
    (∀ (disk : Disk) (now : Nat) (st : St) (p : String)
       (opts : WriteFileOptions) (pd : DirectoryInfo) (fd : FileData)
       (dt : String),
       opts.create.getD true = true →
       p ≠ "" → isRootFilePath p = false →
       st.files.get (getParentFilePath p) = some (.dir pd) →
       pathBaseName p ≠ "" →
       disk.file (pd.path ++ "/" ++ getFileEntryName st.files p) = some fd →
       disk.writeOk (pd.path ++ "/" ++ getFileEntryName st.files p) = false →
       (writeFile disk now st p opts (some dt)).res.isOk = false ∧
       (ExtCall.abortStream (pd.path ++ "/" ++ getFileEntryName st.files p),
          st.pause) ∈ (writeFile disk now st p opts (some dt)).calls ∧
       (writeFile disk now st p opts (some dt)).st = st) := by
  refine ⟨?_, ?_, ?_⟩
  · intro disk now st p opts data hroot
    unfold writeFile
    rw [if_pos hroot]
    exact ⟨rfl, rfl, rfl⟩
  · intro disk now st p opts pd fi dt hc hpne hproot hpar hbase hget hwfail
    have hensure : ensureGetParentDirInfo st.files p = .ok pd := by
      simp only [ensureGetParentDirInfo]
      rw [hpar]
    have hv : ¬(p = "" ∨ isRootFilePath p = true) := by
      rintro (h | h)
      · exact hpne h
      · rw [hproot] at h
        cases h
    have hhk : st.files.hasKey p = true := by
      unfold Smap.hasKey
      rw [hget]
      rfl
    have hred : writeFile disk now st p opts (some dt) =
        writeFileBody disk now st pd (pathBaseName p) p false opts.openOpt
          (some dt) := by
      simp only [writeFile]
      simp [hv, hensure, hbase, hc, hhk]
    rw [hred]
    refine ⟨?_, ?_, ?_⟩
    · simp [writeFileBody, hget, hwfail, Except.isOk, Except.toBool]
    · simp [writeFileBody, hget, hwfail]
    · simp [writeFileBody, hget, hwfail]
  · intro disk now st p opts pd fd dt hc hpne hproot hpar hbase hfile hwfail
    have hensure : ensureGetParentDirInfo st.files p = .ok pd := by
      simp only [ensureGetParentDirInfo]
      rw [hpar]
    have hv : ¬(p = "" ∨ isRootFilePath p = true) := by
      rintro (h | h)
      · exact hpne h
      · rw [hproot] at h
        cases h
    have hred : writeFile disk now st p opts (some dt) =
        writeFileBody disk now st pd (getFileEntryName st.files p)
          (pd.path ++ "/" ++ getFileEntryName st.files p) true opts.openOpt
          (some dt) := by
      simp only [writeFile]
      simp [hv, hensure, hbase, hc]
    rw [hred]
    refine ⟨?_, ?_, ?_⟩
    · simp [writeFileBody, hfile, hwfail, Except.isOk, Except.toBool]
    · simp [writeFileBody, hfile, hwfail]
    · simp [writeFileBody, hfile, hwfail]

/-- Witness for C7 (amended): the root path `"r"` is rejected with no
external call, and the failed write at `"r/a.b"` (no open request)
aborts the stream and leaves the state exactly as it was. -/
theorem writefile_atomicity_c7_amended_witness :
    (writeFile diskFx 0 stFx "r" {} none).calls = [] ∧
    (ExtCall.abortStream "r/a.b", false) ∈
      (writeFile diskWriteFailFx 100 stFx "r/a.b"
        { create := some false, openOpt := none, keepData := none }
        (some "x")).calls ∧
    (writeFile diskWriteFailFx 100 stFx "r/a.b"
        { create := some false, openOpt := none, keepData := none }
        (some "x")).st = stFx := by
  refine ⟨?_, ?_, ?_⟩
  · exact (writefile_atomicity_c7_amended.1 diskFx 0 stFx "r" {} none
      (by decide)).2.1
  · have h := (writefile_atomicity_c7_amended.2.1 diskWriteFailFx 100 stFx
      "r/a.b" { create := some false, openOpt := none, keepData := none }
      rootFx fileFx "x" (by decide) (by decide) (by decide) (by decide)
      (by decide) (by decide) (by decide)).2.1
    simpa [stFx] using h
  · have h := (writefile_atomicity_c7_amended.2.1 diskWriteFailFx 100 stFx
      "r/a.b" { create := some false, openOpt := none, keepData := none }
      rootFx fileFx "x" (by decide) (by decide) (by decide) (by decide)
      (by decide) (by decide) (by decide)).2.2
    simpa using h

/-! ### Persistence lemmas for the tree loader -/

theorem LSt.write_isSome (st : LSt) (k' : String) (e : Entry) (k : String)
    (h : (st.files.get k).isSome = true) :
    ((st.write k' e).files.get k).isSome = true := by
  have := (Smap.get_isSome_set st.files k' k e).mpr (Or.inr h)
  simpa [LSt.write] using this

theorem LSt.write_get_self (st : LSt) (k : String) (e : Entry) :
    ((st.write k e).files.get k) = some e := by
  simp [LSt.write, Smap.get_set_self]

theorem loadFiles_mono (ig : String → Bool) (fs : List (String × FileData))
    (dirPath : String) (st : LSt) (k : String)
    (h : (st.files.get k).isSome = true) :
    ((loadFiles ig fs dirPath st).files.get k).isSome = true := by
  induction fs generalizing st with
  | nil => simpa [loadFiles]
  | cons e rest ih =>
      obtain ⟨name, fd⟩ := e
      simp only [loadFiles]
      split
      · exact ih _ (by simpa [LSt.addIgnored] using h)
      · exact ih _ (LSt.write_isSome _ _ _ _ h)

mutual

theorem loadDirectories_mono (ig : String → Bool) (t : DiskTree) (n p : String)
    (d : Nat) (st : LSt) (k : String)
    (h : (st.files.get k).isSome = true) :
    ((loadDirectories ig t n p d st).files.get k).isSome = true := by
  match t with
  | .node fs ds =>
      rw [loadDirectories]
      split
      · simpa [LSt.addIgnored]
      · exact LSt.write_isSome _ _ _ _
          (loadSubdirs_mono ig ds p d _ k
            (loadFiles_mono ig fs p _ k (LSt.write_isSome _ _ _ _ h)))

theorem loadSubdirs_mono (ig : String → Bool) (ds : List (String × DiskTree))
    (p : String) (d : Nat) (st : LSt) (k : String)
    (h : (st.files.get k).isSome = true) :
    ((loadSubdirs ig ds p d st).files.get k).isSome = true := by
  match ds with
  | [] => simpa [loadSubdirs]
  | (name, sub) :: rest =>
      rw [loadSubdirs]
      refine loadSubdirs_mono ig rest p d _ k ?_
      split
      · exact loadDirectories_mono ig sub name (p ++ "/" ++ name) (d - 1) st k h
      · split
        · simpa [LSt.addIgnored]
        · exact LSt.write_isSome _ _ _ _ h

end

theorem loadDirectories_top (ig : String → Bool) (t : DiskTree) (n p : String)
    (d : Nat) (st : LSt) (h : ig p = false) :
    ∃ e : DirectoryInfo,
      (loadDirectories ig t n p d st).files.get p = some (.dir e) ∧
      e.loaded = true := by
  match t with
  | .node fs ds =>
      rw [loadDirectories, if_neg (by simp [h])]
      exact ⟨_, LSt.write_get_self _ _ _, rfl⟩

theorem loadFiles_present (ig : String → Bool) (fs : List (String × FileData))
    (dirPath : String) (st : LSt) (name : String) (fd : FileData)
    (hmem : (name, fd) ∈ fs) (hig : ig (dirPath ++ "/" ++ name) = false) :
    ((loadFiles ig fs dirPath st).files.get
      (dirPath ++ "/" ++ name)).isSome = true := by
  induction hmem generalizing st with
  | head rest =>
      simp only [loadFiles]
      rw [if_neg (by simp [hig])]
      exact loadFiles_mono ig rest dirPath _ _
        (by rw [LSt.write_get_self]; rfl)
  | tail b hmem' ih =>
      simp only [loadFiles]
      exact ih _

theorem loadSubdirs_present (ig : String → Bool) (ds : List (String × DiskTree))
    (dirPath : String) (depth : Nat) (st : LSt) (name : String) (sub : DiskTree)
    (hmem : (name, sub) ∈ ds) (hig : ig (dirPath ++ "/" ++ name) = false) :
    ((loadSubdirs ig ds dirPath depth st).files.get
      (dirPath ++ "/" ++ name)).isSome = true := by
  induction hmem generalizing st with
  | head rest =>
      rw [loadSubdirs]
      refine loadSubdirs_mono ig rest dirPath depth _ _ ?_
      split
      · obtain ⟨e, he, _⟩ :=
          loadDirectories_top ig sub name (dirPath ++ "/" ++ name) (depth - 1)
            st hig
        rw [he]
        rfl
      · rw [if_neg (by simp [hig])]
        rw [LSt.write_get_self]
        rfl
  | tail b hmem' ih =>
      rw [loadSubdirs]
      exact ih _

/-- C8 (counterexample): during the depth-2 load of the tree
`r ▸ s ▸ f`, the intermediate index snapshot written right after the
fresh depth-1 entry for `"r/s"` holds that directory with
`loaded = true` (the fresh entry is created as `loaded: !isNode`, which
is `true` at the depth limit) while its file child `"r/s/f"` is still
missing — the flag is up *before* child enumeration, not after. -/
theorem loaded_flag_c8_cex :
    ∃ m ∈ loadRunFx.snaps,
      m.get "r/s" = some (.dir
        { name := "s", path := "r/s", handle := "r/s", loaded := true }) ∧
      m.get "r/s/f" = none := by
  have hsnaps : loadRunFx.snaps =
      [[("r", .dir { name := "r", path := "r", handle := "r", loaded := false })],
       [("r", .dir { name := "r", path := "r", handle := "r", loaded := false }),
        ("r/s", .dir { name := "s", path := "r/s", handle := "r/s", loaded := true })],
       [("r", .dir { name := "r", path := "r", handle := "r", loaded := false }),
        ("r/s", .dir { name := "s", path := "r/s", handle := "r/s", loaded := true }),
        ("r/s/f", .file { name := "f", path := "r/s/f", handle := "r/s/f", size := 1, lastModified := 5, type := "t", content := none, opened := false })],
       [("r", .dir { name := "r", path := "r", handle := "r", loaded := false }),
        ("r/s", .dir { name := "s", path := "r/s", handle := "r/s", loaded := true }),
        ("r/s/f", .file { name := "f", path := "r/s/f", handle := "r/s/f", size := 1, lastModified := 5, type := "t", content := none, opened := false })],
       [("r", .dir { name := "r", path := "r", handle := "r", loaded := true }),
        ("r/s", .dir { name := "s", path := "r/s", handle := "r/s", loaded := true }),
        ("r/s/f", .file { name := "f", path := "r/s/f", handle := "r/s/f", size := 1, lastModified := 5, type := "t", content := none, opened := false })]] := by
    simp [loadRunFx, loadDirectories, loadSubdirs, loadFiles, LSt.write,
      treeFx, Smap.set, Smap.get]
  rw [hsnaps]
  decide

/-- C8 (amended): once `loadDirectories` *returns*, its directory entry
carries `loaded = true` and every non-ignored immediate child (file or
subdirectory) is present in the index — the final re-write does mark the
flag only after enumeration; the guarantee is about the post-state only,
since the intermediate snapshots can already show a fresh depth-limited
entry with the flag up before its children (counterexample). -/
theorem loaded_flag_c8_amended (ig : String → Bool)
    (fs : List (String × FileData)) (ds : List (String × DiskTree))
    (n dirPath : String) (depth : Nat) (st : LSt)
    (hig : ig dirPath = false) :
    (∃ e : DirectoryInfo,
       (loadDirectories ig (.node fs ds) n dirPath depth st).files.get dirPath =
         some (.dir e) ∧ e.loaded = true) ∧
    (∀ name fd, (name, fd) ∈ fs → ig (dirPath ++ "/" ++ name) = false →
       ((loadDirectories ig (.node fs ds) n dirPath depth st).files.get
         (dirPath ++ "/" ++ name)).isSome = true) ∧
    (∀ name sub, (name, sub) ∈ ds → ig (dirPath ++ "/" ++ name) = false →
       ((loadDirectories ig (.node fs ds) n dirPath depth st).files.get
         (dirPath ++ "/" ++ name)).isSome = true) := by
  refine ⟨loadDirectories_top ig (.node fs ds) n dirPath depth st hig, ?_, ?_⟩
  · intro name fd hmem hig'
    rw [loadDirectories, if_neg (by simp [hig])]
    exact LSt.write_isSome _ _ _ _
      (loadSubdirs_mono ig ds dirPath depth _ _
        (loadFiles_present ig fs dirPath _ name fd hmem hig'))
  · intro name sub hmem hig'
    rw [loadDirectories, if_neg (by simp [hig])]
    exact LSt.write_isSome _ _ _ _
      (loadSubdirs_present ig ds dirPath depth _ name sub hmem hig')

/-- Witness for C8 (amended) on the `r ▸ s ▸ f` tree with no filtering:
after the load returns, `"r"` is a loaded directory entry and the child
directory `"r/s"` is present. -/
theorem loaded_flag_c8_amended_witness :
    (∃ e : DirectoryInfo,
       (loadDirectories (fun _ => false)
         (.node [] [("s", .node [("f", ⟨"f", 5, 1, "t", "x"⟩)] [])])
         "r" "r" 2 ⟨[], [], []⟩).files.get "r" = some (.dir e) ∧
       e.loaded = true) ∧
    ((loadDirectories (fun _ => false)
       (.node [] [("s", .node [("f", ⟨"f", 5, 1, "t", "x"⟩)] [])])
       "r" "r" 2 ⟨[], [], []⟩).files.get ("r" ++ "/" ++ "s")).isSome = true :=
  ⟨(loaded_flag_c8_amended (fun _ => false) []
      [("s", .node [("f", ⟨"f", 5, 1, "t", "x"⟩)] [])] "r" "r" 2 ⟨[], [], []⟩
      rfl).1,
   (loaded_flag_c8_amended (fun _ => false) []
      [("s", .node [("f", ⟨"f", 5, 1, "t", "x"⟩)] [])] "r" "r" 2 ⟨[], [], []⟩
      rfl).2.2 "s" (.node [("f", ⟨"f", 5, 1, "t", "x"⟩)] [])
      (by simp) rfl⟩

/-! ### Shape lemmas for the poll-cycle classification -/

theorem pfn_char (f : String → FileData) (c t : Nat) (prev : Smap Entry)
    (path : String) (node : VNode) (acc : CycleAcc) :
    (processFileNode f c t prev path node acc).seenEntries = acc.seenEntries ∧
    (∃ e : Entry, (processFileNode f c t prev path node acc).files =
      acc.files.set path e) ∧
    ((prev.get path = none →
      ∃ e : Entry, (processFileNode f c t prev path node acc).addedEntries =
        acc.addedEntries.set path e) ∧
     ((prev.get path).isSome = true →
      (processFileNode f c t prev path node acc).addedEntries =
        acc.addedEntries)) ∧
    ((processFileNode f c t prev path node acc).modifiedEntries =
       acc.modifiedEntries ∨
     ∃ (fi pf : FileInfo),
       (processFileNode f c t prev path node acc).modifiedEntries =
         acc.modifiedEntries.set path fi ∧
       prev.get path = some (.file pf)) := by
  rcases node with h | ⟨h, dn⟩
  · refine ⟨rfl, ⟨_, rfl⟩, ⟨?_, ?_⟩, ?_⟩
    · intro hnone
      simp only [processFileNode]
      rw [hnone]
      exact ⟨_, rfl⟩
    · intro hsome
      simp only [processFileNode]
      obtain ⟨v, hv⟩ := Option.isSome_iff_exists.mp hsome
      rw [hv]
      rfl
    · rcases hpe : prev.get path with _ | e
      · left
        simp only [processFileNode]
        rw [hpe]
        rfl
      · rcases e with pf | pd
        · by_cases hm : pf.lastModified ≠ (f h).lastModified
          · right
            simp only [processFileNode]
            rw [hpe]
            simp [hm]
          · left
            simp only [processFileNode]
            rw [hpe]
            simp [hm]
        · left
          simp only [processFileNode]
          rw [hpe]
          rfl
  · refine ⟨rfl, ⟨_, rfl⟩, ⟨?_, ?_⟩, Or.inl rfl⟩
    · intro hnone
      simp only [processFileNode]
      rw [hnone]
      exact ⟨_, rfl⟩
    · intro hsome
      simp only [processFileNode]
      obtain ⟨v, hv⟩ := Option.isSome_iff_exists.mp hsome
      rw [hv]
      rfl

theorem pfn_modified_hit (f : String → FileData) (c t : Nat) (prev : Smap Entry)
    (p h : String) (pf : FileInfo) (acc : CycleAcc)
    (hprev : prev.get p = some (.file pf))
    (hne : pf.lastModified ≠ (f h).lastModified) :
    ((processFileNode f c t prev p (.file h) acc).modifiedEntries.get p).isSome
      = true := by
  simp only [processFileNode]
  rw [hprev]
  simp [hne, Smap.get_set_self]

theorem ccg_added_mono (f : String → FileData) (c t : Nat) (prev : Smap Entry)
    (l : List (String × VNode)) :
    ∀ (acc : CycleAcc) (q : String),
      (acc.addedEntries.get q).isSome = true →
      ((cycleClassifyGo f c t prev l acc).addedEntries.get q).isSome = true := by
  induction l with
  | nil =>
      intro acc q hq
      simpa [cycleClassifyGo] using hq
  | cons e rest ih =>
      intro acc q hq
      obtain ⟨path, node⟩ := e
      simp only [cycleClassifyGo]
      refine ih _ q ?_
      rcases hpe : prev.get path with _ | v
      · obtain ⟨e0, he⟩ := (pfn_char f c t prev path node _).2.2.1.1 hpe
        rw [he, Smap.get_isSome_set]
        exact Or.inr hq
      · rw [(pfn_char f c t prev path node _).2.2.1.2 (by rw [hpe]; rfl)]
        exact hq

theorem ccg_modified_mono (f : String → FileData) (c t : Nat) (prev : Smap Entry)
    (l : List (String × VNode)) :
    ∀ (acc : CycleAcc) (q : String),
      (acc.modifiedEntries.get q).isSome = true →
      ((cycleClassifyGo f c t prev l acc).modifiedEntries.get q).isSome = true := by
  induction l with
  | nil =>
      intro acc q hq
      simpa [cycleClassifyGo] using hq
  | cons e rest ih =>
      intro acc q hq
      obtain ⟨path, node⟩ := e
      simp only [cycleClassifyGo]
      refine ih _ q ?_
      rcases (pfn_char f c t prev path node _).2.2.2 with hsame | ⟨fi, pf, heq, _⟩
      · rw [hsame]
        exact hq
      · rw [heq, Smap.get_isSome_set]
        exact Or.inr hq

theorem ccg_inv (f : String → FileData) (c t : Nat) (prev : Smap Entry)
    (l : List (String × VNode)) :
    ∀ (acc : CycleAcc),
      (∀ q, (acc.addedEntries.get q).isSome = true → prev.get q = none) →
      (∀ q, (acc.modifiedEntries.get q).isSome = true →
        ∃ pf : FileInfo, prev.get q = some (.file pf)) →
      (∀ q, (acc.addedEntries.get q).isSome = true → q ∈ acc.seenEntries) →
      (∀ q, (acc.modifiedEntries.get q).isSome = true → q ∈ acc.seenEntries) →
      (∀ q, q ∈ acc.seenEntries → (acc.files.get q).isSome = true) →
      (∀ q, (acc.files.get q).isSome = true → prev.get q = none →
        (acc.addedEntries.get q).isSome = true) →
      (∀ q, ((cycleClassifyGo f c t prev l acc).addedEntries.get q).isSome = true →
        prev.get q = none) ∧
      (∀ q, ((cycleClassifyGo f c t prev l acc).modifiedEntries.get q).isSome = true →
        ∃ pf : FileInfo, prev.get q = some (.file pf)) ∧
      (∀ q, ((cycleClassifyGo f c t prev l acc).addedEntries.get q).isSome = true →
        q ∈ (cycleClassifyGo f c t prev l acc).seenEntries) ∧
      (∀ q, ((cycleClassifyGo f c t prev l acc).modifiedEntries.get q).isSome = true →
        q ∈ (cycleClassifyGo f c t prev l acc).seenEntries) ∧
      (∀ q, q ∈ (cycleClassifyGo f c t prev l acc).seenEntries →
        ((cycleClassifyGo f c t prev l acc).files.get q).isSome = true) ∧
      (∀ q, ((cycleClassifyGo f c t prev l acc).files.get q).isSome = true →
        prev.get q = none →
        ((cycleClassifyGo f c t prev l acc).addedEntries.get q).isSome = true) := by
  induction l with
  | nil =>
      intro acc h1 h2 h3 h4 h5 h6
      simp only [cycleClassifyGo]
      exact ⟨h1, h2, h3, h4, h5, h6⟩
  | cons e rest ih =>
      intro acc h1 h2 h3 h4 h5 h6
      obtain ⟨path, node⟩ := e
      simp only [cycleClassifyGo]
      obtain ⟨hseen, ⟨ef, hef⟩, ⟨haddN, haddS⟩, hmod⟩ :=
        pfn_char f c t prev path node
          { acc with seenEntries := acc.seenEntries ++ [path] }
      refine ih _ ?_ ?_ ?_ ?_ ?_ ?_
      · intro q hq
        rcases hpe : prev.get path with _ | v
        · obtain ⟨e0, he⟩ := haddN hpe
          rw [he, Smap.get_isSome_set] at hq
          rcases hq with rfl | hold
          · exact hpe
          · exact h1 q hold
        · rw [haddS (by rw [hpe]; rfl)] at hq
          exact h1 q hq
      · intro q hq
        rcases hmod with hsame | ⟨fi, pf, heq, hpe⟩
        · rw [hsame] at hq
          exact h2 q hq
        · rw [heq, Smap.get_isSome_set] at hq
          rcases hq with rfl | hold
          · exact ⟨pf, hpe⟩
          · exact h2 q hold
      · intro q hq
        rw [hseen]
        show q ∈ acc.seenEntries ++ [path]
        rcases hpe : prev.get path with _ | v
        · obtain ⟨e0, he⟩ := haddN hpe
          rw [he, Smap.get_isSome_set] at hq
          rcases hq with rfl | hold
          · exact List.mem_append.mpr (Or.inr (List.mem_singleton.mpr rfl))
          · exact List.mem_append.mpr (Or.inl (h3 q hold))
        · rw [haddS (by rw [hpe]; rfl)] at hq
          exact List.mem_append.mpr (Or.inl (h3 q hq))
      · intro q hq
        rw [hseen]
        show q ∈ acc.seenEntries ++ [path]
        rcases hmod with hsame | ⟨fi, pf, heq, hpe⟩
        · rw [hsame] at hq
          exact List.mem_append.mpr (Or.inl (h4 q hq))
        · rw [heq, Smap.get_isSome_set] at hq
          rcases hq with rfl | hold
          · exact List.mem_append.mpr (Or.inr (List.mem_singleton.mpr rfl))
          · exact List.mem_append.mpr (Or.inl (h4 q hold))
      · intro q hq
        rw [hseen] at hq
        rw [hef, Smap.get_isSome_set]
        rcases List.mem_append.mp hq with hold | hpath
        · exact Or.inr (h5 q hold)
        · exact Or.inl (List.mem_singleton.mp hpath).symm
      · intro q hq hnone
        rw [hef, Smap.get_isSome_set] at hq
        rcases hq with rfl | hold
        · obtain ⟨e0, he⟩ := haddN hnone
          rw [he, Smap.get_isSome_set]
          exact Or.inl rfl
        · have hacc := h6 q hold hnone
          rcases hpe : prev.get path with _ | v
          · obtain ⟨e0, he⟩ := haddN hpe
            rw [he, Smap.get_isSome_set]
            exact Or.inr hacc
          · rw [haddS (by rw [hpe]; rfl)]
            exact hacc

theorem ccg_modified_complete (f : String → FileData) (c t : Nat)
    (prev : Smap Entry) (l : List (String × VNode)) (p h : String)
    (pf : FileInfo) (hmem : (p, VNode.file h) ∈ l)
    (hprev : prev.get p = some (.file pf))
    (hne : pf.lastModified ≠ (f h).lastModified) :
    ∀ acc : CycleAcc,
      ((cycleClassifyGo f c t prev l acc).modifiedEntries.get p).isSome = true := by
  induction hmem with
  | head rest =>
      intro acc
      simp only [cycleClassifyGo]
      exact ccg_modified_mono f c t prev rest _ p
        (pfn_modified_hit f c t prev p h pf _ hprev hne)
  | tail b hmem' ih =>
      intro acc
      obtain ⟨path, node⟩ := b
      simp only [cycleClassifyGo]
      exact ih _

/-! ### Shape lemmas for removal detection -/

theorem dd_mono (seen : List String) (l : List (String × Entry)) :
    ∀ (del : Smap Entry) (w : Smap String) (q : String),
      (del.get q).isSome = true →
      ((detectDeleted seen l del w).1.get q).isSome = true := by
  induction l with
  | nil =>
      intro del w q hq
      simpa [detectDeleted] using hq
  | cons hd rest ih =>
      intro del w q hq
      obtain ⟨path, info⟩ := hd
      rcases info with fi | di
      · simp only [detectDeleted]
        split
        · exact ih del w q hq
        · refine ih _ _ q ?_
          rw [Smap.get_isSome_set]
          exact Or.inr hq
      · simp only [detectDeleted]
        split
        · exact ih del w q hq
        · refine ih _ _ q ?_
          rw [Smap.get_isSome_set]
          exact Or.inr hq

theorem dd_complete (seen : List String) (l : List (String × Entry))
    (p : String) (e : Entry) (hmem : (p, e) ∈ l)
    (hns : seen.contains p = false) :
    ∀ (del : Smap Entry) (w : Smap String),
      ((detectDeleted seen l del w).1.get p).isSome = true := by
  induction hmem with
  | head rest =>
      intro del w
      rcases e with fi | di
      · simp only [detectDeleted]
        rw [if_neg (by simpa using hns)]
        exact dd_mono seen rest _ _ p (by rw [Smap.get_set_self]; rfl)
      · simp only [detectDeleted]
        rw [if_neg (by simpa using hns)]
        exact dd_mono seen rest _ _ p (by rw [Smap.get_set_self]; rfl)
  | tail b hmem' ih =>
      intro del w
      obtain ⟨path, info⟩ := b
      rcases info with fi | di
      · simp only [detectDeleted]
        split
        · exact ih _ _
        · exact ih _ _
      · simp only [detectDeleted]
        split
        · exact ih _ _
        · exact ih _ _

theorem dd_unseen (seen : List String) (l : List (String × Entry)) :
    ∀ (del : Smap Entry) (w : Smap String),
      (∀ q, (del.get q).isSome = true → seen.contains q = false) →
      ∀ q, ((detectDeleted seen l del w).1.get q).isSome = true →
        seen.contains q = false := by
  induction l with
  | nil =>
      intro del w hinv q hq
      exact hinv q (by simpa [detectDeleted] using hq)
  | cons hd rest ih =>
      intro del w hinv q hq
      obtain ⟨path, info⟩ := hd
      rcases info with fi | di
      · simp only [detectDeleted] at hq
        split at hq
        · exact ih del w hinv q hq
        · next hc =>
            refine ih _ _ ?_ q hq
            intro r hr
            rw [Smap.get_isSome_set] at hr
            rcases hr with heq | hold
            · rw [← heq]
              exact Bool.eq_false_iff.mpr hc
            · exact hinv r hold
      · simp only [detectDeleted] at hq
        split at hq
        · exact ih del w hinv q hq
        · next hc =>
            refine ih _ _ ?_ q hq
            intro r hr
            rw [Smap.get_isSome_set] at hr
            rcases hr with heq | hold
            · rw [← heq]
              exact Bool.eq_false_iff.mpr hc
            · exact hinv r hold

theorem pfe_report (f : String → FileData) (c t : Nat)
    (entries : List (String × VNode)) (st : St) :
    (processFilteredEntries f c t entries st).2.addedEntries =
      (cycleClassify f c t st.prevFiles st.fileCache entries).addedEntries ∧
    (processFilteredEntries f c t entries st).2.deletedEntries =
      (detectDeleted
        (cycleClassify f c t st.prevFiles st.fileCache entries).seenEntries
        st.prevFiles [] st.watched).1 ∧
    (processFilteredEntries f c t entries st).2.modifiedEntries =
      (cycleClassify f c t st.prevFiles st.fileCache entries).modifiedEntries := by
  simp only [processFilteredEntries]
  split <;> exact ⟨rfl, rfl, rfl⟩

/-- C1: diff completeness of one poll cycle.  With `S1` the Previous
Snapshot (`st.prevFiles`) and `S2` the freshly built snapshot of the
cycle (the `files` accumulator of the classification), every path in
`S2` but not `S1` is in the reported `added` set, every path in `S1` but
not `S2` is in `deleted`, a file of `S1` with `opened = true` that the
walk revisits with a different modification timestamp is in `modified`,
and no path lands in two of the three sets. -/
theorem diff_completeness_c1 (fdOf : String → FileData) (ct ts : Nat)
    (entries : List (String × VNode)) (st : St) :
    (∀ p,
       ((cycleClassify fdOf ct ts st.prevFiles st.fileCache entries).files.get
         p).isSome = true →
       st.prevFiles.get p = none →
       ((processFilteredEntries fdOf ct ts entries st).2.addedEntries.get
         p).isSome = true) ∧
    (∀ p, (st.prevFiles.get p).isSome = true →
       (cycleClassify fdOf ct ts st.prevFiles st.fileCache entries).files.get
         p = none →
       ((processFilteredEntries fdOf ct ts entries st).2.deletedEntries.get
         p).isSome = true) ∧
    (∀ (p h : String) (pf : FileInfo), (p, VNode.file h) ∈ entries →
       st.prevFiles.get p = some (.file pf) → pf.opened = true →
       pf.lastModified ≠ (fdOf h).lastModified →
       ((processFilteredEntries fdOf ct ts entries st).2.modifiedEntries.get
         p).isSome = true) ∧
    (∀ p,
       ¬(((processFilteredEntries fdOf ct ts entries st).2.addedEntries.get
            p).isSome = true ∧
         ((processFilteredEntries fdOf ct ts entries st).2.deletedEntries.get
            p).isSome = true) ∧
       ¬(((processFilteredEntries fdOf ct ts entries st).2.addedEntries.get
            p).isSome = true ∧
         ((processFilteredEntries fdOf ct ts entries st).2.modifiedEntries.get
            p).isSome = true) ∧
       ¬(((processFilteredEntries fdOf ct ts entries st).2.deletedEntries.get
            p).isSome = true ∧
         ((processFilteredEntries fdOf ct ts entries st).2.modifiedEntries.get
            p).isSome = true)) := by
  obtain ⟨hA, hD, hM⟩ := pfe_report fdOf ct ts entries st
  have hJ := ccg_inv fdOf ct ts st.prevFiles entries
    ⟨[], [], [], st.fileCache, []⟩
    (by intro q hq; simp [Smap.get] at hq)
    (by intro q hq; simp [Smap.get] at hq)
    (by intro q hq; simp [Smap.get] at hq)
    (by intro q hq; simp [Smap.get] at hq)
    (by intro q hq; cases hq)
    (by intro q hq; simp [Smap.get] at hq)
  obtain ⟨j1, j2, j3, j4, j5, j6⟩ := hJ
  have hDel0 : ∀ q, ((Smap.get ([] : Smap Entry) q).isSome = true) →
      (cycleClassify fdOf ct ts st.prevFiles st.fileCache
        entries).seenEntries.contains q = false := by
    intro q hq
    simp [Smap.get] at hq
  refine ⟨?_, ?_, ?_, ?_⟩
  · intro p hs2 hprev
    rw [hA]
    exact j6 p hs2 hprev
  · intro p hs1 hs2
    rw [hD]
    obtain ⟨v, hv⟩ := Option.isSome_iff_exists.mp hs1
    have hns : (cycleClassify fdOf ct ts st.prevFiles st.fileCache
        entries).seenEntries.contains p = false := by
      rcases hb : (cycleClassify fdOf ct ts st.prevFiles st.fileCache
          entries).seenEntries.contains p with _ | _
      · rfl
      · have hmem := List.elem_iff.mp hb
        have h5' : ((cycleClassify fdOf ct ts st.prevFiles st.fileCache
            entries).files.get p).isSome = true := j5 p hmem
        rw [hs2] at h5'
        cases h5'
    exact dd_complete _ st.prevFiles p v (Smap.get_mem hv) hns [] st.watched
  · intro p h pf hmem hprev hop hne
    rw [hM]
    exact ccg_modified_complete fdOf ct ts st.prevFiles entries p h pf hmem
      hprev hne _
  · intro p
    refine ⟨?_, ?_, ?_⟩
    · rintro ⟨ha, hd⟩
      rw [hA] at ha
      rw [hD] at hd
      have hseen := j3 p ha
      have hns := dd_unseen _ st.prevFiles [] st.watched hDel0 p hd
      have htrue : (cycleClassify fdOf ct ts st.prevFiles st.fileCache
          entries).seenEntries.contains p = true := List.elem_iff.mpr hseen
      rw [htrue] at hns
      cases hns
    · rintro ⟨ha, hm⟩
      rw [hA] at ha
      rw [hM] at hm
      obtain ⟨pf, hpf⟩ := j2 p hm
      rw [j1 p ha] at hpf
      cases hpf
    · rintro ⟨hd, hm⟩
      rw [hD] at hd
      rw [hM] at hm
      have hseen := j4 p hm
      have hns := dd_unseen _ st.prevFiles [] st.watched hDel0 p hd
      have htrue : (cycleClassify fdOf ct ts st.prevFiles st.fileCache
          entries).seenEntries.contains p = true := List.elem_iff.mpr hseen
      rw [htrue] at hns
      cases hns

/-- Witness for C1 at the `diffStFx` / `diffEntriesFx` cycle: the new
file `"r/new"` is reported added, the vanished `"r/gone"` deleted, and
the opened `"r/a.b"` (timestamp 10 → 20) modified. -/
theorem diff_completeness_c1_witness :
    ((processFilteredEntries fdFx 100 50 diffEntriesFx
       diffStFx).2.addedEntries.get "r/new").isSome = true ∧
    ((processFilteredEntries fdFx 100 50 diffEntriesFx
       diffStFx).2.deletedEntries.get "r/gone").isSome = true ∧
    ((processFilteredEntries fdFx 100 50 diffEntriesFx
       diffStFx).2.modifiedEntries.get "r/a.b").isSome = true := by
  refine ⟨?_, ?_, ?_⟩
  · exact (diff_completeness_c1 fdFx 100 50 diffEntriesFx diffStFx).1 "r/new"
      (by decide) (by decide)
  · exact (diff_completeness_c1 fdFx 100 50 diffEntriesFx diffStFx).2.1 "r/gone"
      (by decide) (by decide)
  · exact (diff_completeness_c1 fdFx 100 50 diffEntriesFx diffStFx).2.2.1
      "r/a.b" "r/a.b" { fileFx with opened := true, content := some "hello" }
      (by decide) (by decide) (by decide) (by decide)

end UseFsAccess
